import Mathlib

set_option maxHeartbeats 1000000
set_option maxRecDepth 100000

/-!
Verification development for the LLILC GC-table emitter and ABI call lowering
(`lib/GcInfo/GcInfo.cpp`, `lib/Reader/abisignature.cpp`).

The C++ sources are embedded shallowly: pure functions become Lean functions,
the stateful encoder protocol becomes explicit state passing plus an event
trace, machine integers are `Nat`/`Int` with explicit `% 2^w` where overflow
matters, and `assert` failures (fatal in this design) become `Except` errors.
-/

namespace LLILC

/-- LLVM types as consumed by `GcInfo` (`lib/GcInfo/GcInfo.cpp`): pointers
carry an address space, aggregates are structs, arrays and vectors. -/
inductive Ty where
  | ptr (addrSpace : Nat)
  | int (bits : Nat)
  | struct (fields : List Ty)
  | array (elem : Ty) (count : Nat)
  | vector (elem : Ty) (count : Nat)

mutual

/-- Structural size of a type; an upper bound on struct-nesting depth, used as
fuel for the nested-struct descent below. -/
def Ty.size : Ty → Nat
  | .ptr _ => 1
  | .int _ => 1
  | .array e _ => e.size + 1
  | .vector e _ => e.size + 1
  | .struct fs => tyListSize fs + 1

/-- Sum of the structural sizes of a list of types. -/
def tyListSize : List Ty → Nat
  | [] => 0
  | t :: ts => t.size + tyListSize ts

end

namespace GcInfo

/-- `GcInfo::ManagedAddressSpace` (GcInfo.h). -/
def ManagedAddressSpace : Nat := 1

/-- `GcInfo::InvalidPointerOffset` (GcInfo.h): the unresolved-offset sentinel. -/
def InvalidPointerOffset : Int := -1

/-- `GcInfo::isGcPointer` (GcInfo.cpp:29-36): a pointer whose address space is
the managed address space. -/
def isGcPointer : Ty → Bool
  | .ptr a => a == ManagedAddressSpace
  | _ => false

mutual

/-- `GcInfo::isGcAggregate` (GcInfo.cpp:38-59): vectors and arrays of managed
pointers, and structs one of whose subtypes is (recursively) a GC type. -/
def isGcAggregate : Ty → Bool
  | .vector e _ => isGcPointer e
  | .array e _ => isGcPointer e
  | .struct fs => anyIsGcType fs
  | _ => false

/-- The `for (Type *SubType : StType->subtypes())` loop in `isGcAggregate`,
testing `isGcType` on each subtype. -/
def anyIsGcType : List Ty → Bool
  | [] => false
  | t :: ts => (isGcPointer t || isGcAggregate t) || anyIsGcType ts

end

/-- `GcInfo::isGcType` (GcInfo.h): a GC pointer or a GC aggregate. -/
def isGcType (t : Ty) : Bool := isGcPointer t || isGcAggregate t

end GcInfo

/-- Model of the parts of `llvm::DataLayout` that `GcInfo::getGcPointers`
consumes (pointer size; struct layouts are derived below with the usual
align-up field placement). -/
structure DataLayout where
  pointerSize : Nat
  pointerSizePos : 0 < pointerSize

/-- Align `n` up to a multiple of `a` (the layout rule used by
`llvm::StructLayout` for field placement). -/
def alignUp (n a : Nat) : Nat := ((n + a - 1) / a) * a

mutual

/-- ABI alignment of a type under the modelled data layout. -/
def alignOf (L : DataLayout) : Ty → Nat
  | .ptr _ => L.pointerSize
  | .int bits => max 1 ((bits + 7) / 8)
  | .array e _ => alignOf L e
  | .vector e _ => alignOf L e
  | .struct fs => maxFieldAlign L fs

/-- Maximum alignment over a struct's fields (at least 1). -/
def maxFieldAlign (L : DataLayout) : List Ty → Nat
  | [] => 1
  | t :: ts => max (alignOf L t) (maxFieldAlign L ts)

end

mutual

/-- `DataLayout::getTypeStoreSize` under the modelled data layout. -/
def storeSize (L : DataLayout) : Ty → Nat
  | .ptr _ => L.pointerSize
  | .int bits => (bits + 7) / 8
  | .array e n => n * alignUp (storeSize L e) (alignOf L e)
  | .vector e n => n * storeSize L e
  | .struct fs => alignUp (structEndOffset L fs 0) (maxFieldAlign L fs)

/-- Offset just past the last field, before trailing padding, starting the
placement at `off`. -/
def structEndOffset (L : DataLayout) : List Ty → Nat → Nat
  | [], off => off
  | f :: fs, off =>
      structEndOffset L fs
        (alignUp off (alignOf L f) + alignUp (storeSize L f) (alignOf L f))

end

/-- `DataLayout::getTypeAllocSize`: store size rounded up to the alignment. -/
def allocSize (L : DataLayout) (t : Ty) : Nat := alignUp (storeSize L t) (alignOf L t)

/-- Field offsets of a struct (as in `llvm::StructLayout`), starting placement
at `off`. -/
def structOffsetsFrom (L : DataLayout) : List Ty → Nat → List Nat
  | [], _ => []
  | f :: fs, off =>
      let fieldOff := alignUp off (alignOf L f)
      fieldOff :: structOffsetsFrom L fs (fieldOff + allocSize L f)

/-- `StructLayout::getElementOffset` table for a struct's fields. -/
def structOffsets (L : DataLayout) (fs : List Ty) : List Nat :=
  structOffsetsFrom L fs 0

/-- `StructLayout::getElementContainingOffset`: the index of the last field
whose offset is at most the target offset. -/
def getElementContainingOffset (offsets : List Nat) (target : Nat) : Nat :=
  (offsets.filter (fun o => decide (o ≤ target))).length - 1

namespace GcInfo

/-- The inner `while (FieldTy->isStructTy())` loop of `GcInfo::getGcPointers`
(GcInfo.cpp:94-114): starting from the fields of a struct and an offset local
to it, find the containing field, and while that field is itself a struct,
translate the offset into the nested struct's coordinates and descend.  The
fuel argument bounds the nesting depth (the C++ loop terminates because struct
nesting is finite); callers pass a fuel no smaller than the nesting depth. -/
def terminalField (L : DataLayout) : Nat → List Ty → Nat → Ty
  | 0, _, _ => .int 0
  | fuel + 1, fields, offset =>
      let offs := structOffsets L fields
      let idx := getElementContainingOffset offs offset
      match fields.getD idx (.int 0) with
      | .struct innerFields => terminalField L fuel innerFields (offset - offs.getD idx 0)
      | t => t

/-- The stride offsets visited by the
`for (GcOffset = 0; GcOffset < TypeSize; GcOffset += PointerSize)` loop of
`GcInfo::getGcPointers` (GcInfo.cpp:80). -/
def strideOffsets (typeSize pointerSize : Nat) : List Nat :=
  (List.range ((typeSize + pointerSize - 1) / pointerSize)).map (· * pointerSize)

/-- The body of the stride loop of `GcInfo::getGcPointers`: for each stride
offset, push it iff the terminal (non-struct) field containing it is a GC
pointer (GcInfo.cpp:117-119). -/
def gcPointersLoop (L : DataLayout) (fields : List Ty) : List Nat → List Nat
  | [] => []
  | gcOffset :: rest =>
      (if isGcPointer (terminalField L (tyListSize fields + 1) fields gcOffset) then [gcOffset] else [])
        ++ gcPointersLoop L fields rest

/-- `GcInfo::getGcPointers` (GcInfo.cpp:70-121): byte offsets, relative to the
start of the struct, at which a reference-typed scalar begins. -/
def getGcPointers (L : DataLayout) (fields : List Ty) : List Nat :=
  gcPointersLoop L fields (strideOffsets (storeSize L (.struct fields)) L.pointerSize)

end GcInfo

/-- A 64-bit data layout (pointer size 8), as used on X64. -/
def layout64 : DataLayout := ⟨8, by decide⟩

/-! ## GcInfoRecorder (GcInfo.cpp:189-289)

The Frame Walker: converts the backend's caller-relative frame offsets into
callee-relative offsets. -/

namespace GcInfoRecorder

/-- Wrap an integer to the value range of `int32_t` (two's complement). -/
def toInt32 (x : Int) : Int := (x + 2 ^ 31) % 2 ^ 32 - 2 ^ 31

/-- Wrap an integer to `uint64_t` range. -/
def wrap64 (x : Int) : Int := x % 2 ^ 64

/-- The offset translation of `GcInfoRecorder::runOnMachineFunction`
(GcInfo.cpp:216-225): `SpOffset = StackSize + StackPointerSize` (`uint64_t`)
and `int32_t SlotOffset = SpOffset + FrameInfo->getObjectOffset(Idx)`, i.e.
the callee-relative offset is the caller-relative offset plus the frame size
plus the pointer width, computed in `uint64_t` and truncated to `int32_t`. -/
def slotOffsetOf (stackSize pointerSize : Nat) (objectOffset : Int) : Int :=
  toInt32 (wrap64 ((stackSize : Int) + (pointerSize : Int) + objectOffset))

end GcInfoRecorder

/-! ## GcInfoEmitter (GcInfo.cpp:291-711)

The Liveness Translator and GC Table Emitter.  The external CoreCLR
`GcInfoEncoder` is modelled by its defined operation contract: calls made to
it are accumulated as an event trace, and `GetStackSlotId` assigns dense
consecutive slot identifiers (the code asserts exactly this contract:
`SlotID == NumSlots - 1`, GcInfo.cpp:502). -/

namespace GcInfoEmitter

/-- Fatal conditions: C++ `assert`s in the emitter, which abort compilation of
the function (no GC table is emitted). -/
inductive GcErr where
  | multipleFunctions
  | gcPointerInRegister
  | unexpectedLocation
  | baseNotStackPointer
  | pinnedSlotNotFound
  | pinnedAlreadyAllocated
  | untrackedAlreadyAllocated
  | aggregateNotFound
  | aggregateNotStruct
deriving DecidableEq, Repr

/-- GC slot flags passed to `GcInfoEncoder::GetStackSlotId`. -/
structure SlotFlags where
  base : Bool := false
  pinned : Bool := false
  untracked : Bool := false
  interior : Bool := false
deriving DecidableEq, Repr

/-- `GC_SLOT_BASE | GC_SLOT_PINNED | GC_SLOT_UNTRACKED` (GcInfo.cpp:577-578). -/
def pinnedFlags : SlotFlags := { base := true, pinned := true, untracked := true }

/-- `GC_SLOT_INTERIOR` (GcInfo.cpp:431): liveness-tracked slots are
conservatively described as containing interior pointers. -/
def trackedFlags : SlotFlags := { interior := true }

/-- `GC_SLOT_BASE | GC_SLOT_UNTRACKED` (GcInfo.cpp:612). -/
def untrackedFlags : SlotFlags := { base := true, untracked := true }

/-- Calls made to the external `GcInfoEncoder`, in order. -/
inductive EncEvent where
  | setCodeLength (size : Nat)
  | setStackBaseRegister
  | setScratchAreaSize (size : Nat)
  | allocSlot (slotId : Nat) (offset : Int) (flags : SlotFlags)
  | setSlotState (instrOffset : Nat) (slotId : Nat) (becomesLive : Bool)
  | finalizeSlotIds
  | defineCallSites (sites : List Nat) (size : Nat)
  | build
  | emitTable
deriving DecidableEq, Repr

/-- Location kinds of LLVM StackMap v1 records. -/
inductive LocationKind where
  | constant
  | constantIndex
  | register
  | direct (dwarfRegNum : Nat) (offset : Int)
  | indirect (dwarfRegNum : Nat) (offset : Int)
deriving DecidableEq, Repr

/-- One LLVM StackMap record: a safepoint at an instruction offset with its
live-value locations. -/
structure SafepointRecord where
  instructionOffset : Nat
  locations : List LocationKind
deriving DecidableEq, Repr

/-- The parsed raw safepoint stream. -/
structure StackMap where
  numFunctions : Nat
  records : List SafepointRecord
deriving DecidableEq, Repr

instance {ε α : Type} [DecidableEq ε] [DecidableEq α] : DecidableEq (Except ε α)
  | .ok a, .ok b =>
      if h : a = b then .isTrue (by rw [h]) else .isFalse (by intro hc; cases hc; exact h rfl)
  | .error a, .error b =>
      if h : a = b then .isTrue (by rw [h]) else .isFalse (by intro hc; cases hc; exact h rfl)
  | .ok _, .error _ => .isFalse (by intro hc; cases hc)
  | .error _, .ok _ => .isFalse (by intro hc; cases hc)

/-- Emitter state: the slot table (stack offset at list index `i` has slot
identifier `i`, mirroring the `SlotMap` `DenseMap` plus the dense-identifier
contract), the call sites noted so far, and the encoder event trace. -/
structure EmitState where
  slotMap : List (Int × Nat)
  callSites : List Nat
  events : List EncEvent
deriving DecidableEq, Repr

/-- The initial state of one function's encoding pass. -/
def initState : EmitState := ⟨[], [], []⟩

/-- `SlotMap.find(Offset)`: the slot identifier already assigned to a stack
offset, if any. -/
def lookupSlot (st : EmitState) (offset : Int) : Option Nat :=
  (st.slotMap.find? (fun p => p.1 == offset)).map (·.2)

/-- `Encoder.GetStackSlotId(Offset, Flags, GC_SP_REL)` followed by
`SlotMap[Offset] = SlotID`: the encoder assigns the next dense identifier. -/
def allocateSlot (st : EmitState) (offset : Int) (flags : SlotFlags) : EmitState :=
  { st with
    slotMap := st.slotMap ++ [(offset, st.slotMap.length)]
    events := st.events ++ [.allocSlot st.slotMap.length offset flags] }

/-- `GcInfoEmitter::encodeHeader` (GcInfo.cpp:308-352): set the code length,
the stack base register when the function uses a frame pointer, and the
outgoing/scratch area size (0). -/
def encodeHeader (hotCodeSize : Nat) (stackBaseIsFramePointer : Bool)
    (st : EmitState) : EmitState :=
  let st := { st with events := st.events ++ [EncEvent.setCodeLength hotCodeSize] }
  let st :=
    if stackBaseIsFramePointer then
      { st with events := st.events ++ [EncEvent.setStackBaseRegister] }
    else st
  { st with events := st.events ++ [EncEvent.setScratchAreaSize 0] }

/-- `GcInfoEmitter::encodePinned` (GcInfo.cpp:574-602): allocate one
base/pinned/untracked slot per pinned location with a resolved offset. -/
def encodePinned (pinnedSlots : List Int) (st : EmitState) : Except GcErr EmitState :=
  match pinnedSlots with
  | [] => .ok st
  | offset :: rest =>
      if offset = GcInfo.InvalidPointerOffset then .error .pinnedSlotNotFound
      else if (lookupSlot st offset).isSome then .error .pinnedAlreadyAllocated
      else encodePinned rest (allocateSlot st offset pinnedFlags)

/-- `const uint8_t CallSiteSize = 2` (GcInfo.cpp:408): the assumed call
instruction encoding length. -/
def CallSiteSize : Nat := 2

/-- X64 DWARF register number of the stack pointer. -/
def DW_STACK_POINTER : Nat := 7

/-- The call-site instruction offset computation (GcInfo.cpp:454-455):
`unsigned InstructionOffset = R.getInstructionOffset() + OffsetCorrection -
CallSiteSize`, with `getInstructionOffset : uint32_t`,
`OffsetCorrection : size_t` (64-bit) and the result truncated to `unsigned`
(32-bit). -/
def instructionOffsetOf (reported offsetCorrection : Nat) : Nat :=
  ((reported % 2 ^ 32 + offsetCorrection % 2 ^ 64 + (2 ^ 64 - CallSiteSize)) % 2 ^ 64) % 2 ^ 32

/-- `NewLiveSet[SlotID] = true`: the live set as a duplicate-free list. -/
def insertLive (s : List Nat) (slotId : Nat) : List Nat :=
  if slotId ∈ s then s else s ++ [slotId]

/-- The `switch (Loc.getKind())` body of `GcInfoEmitter::encodeLiveness`
(GcInfo.cpp:468-534): constants are skipped, a register-resident live GC
pointer and any other location kind are fatal, and a direct (stack-relative)
location is resolved to an existing slot or allocated a fresh tracked slot;
slots at or above the pinned-slot count are marked live in the new live set. -/
def processLocation (numPinnedSlots : Nat) (acc : EmitState × List Nat) :
    LocationKind → Except GcErr (EmitState × List Nat)
  | .constant => .ok acc
  | .constantIndex => .ok acc
  | .register => .error .gcPointerInRegister
  | .indirect _ _ => .error .unexpectedLocation
  | .direct dwarfRegNum offset =>
      if dwarfRegNum ≠ DW_STACK_POINTER then .error .baseNotStackPointer
      else
        let (st, newLiveSet) := acc
        let (slotId, st) :=
          match lookupSlot st offset with
          | none => (st.slotMap.length, allocateSlot st offset trackedFlags)
          | some id => (id, st)
        .ok (st, if numPinnedSlots ≤ slotId then insertLive newLiveSet slotId else newLiveSet)

/-- The `for (const auto &Loc : R.locations())` loop (GcInfo.cpp:468). -/
def processLocations (numPinnedSlots : Nat) (acc : EmitState × List Nat) :
    List LocationKind → Except GcErr (EmitState × List Nat)
  | [] => .ok acc
  | loc :: rest => do
      processLocations numPinnedSlots (← processLocation numPinnedSlots acc loc) rest

/-- The per-record diff loop (GcInfo.cpp:536-555): for every slot identifier
below the current slot count, report `GC_SLOT_LIVE` when it became live and
`GC_SLOT_DEAD` when it died, relative to the previous record's live set. -/
def diffEvents (instrOffset : Nat) (numSlots : Nat) (old new : List Nat) :
    List EncEvent :=
  (List.range numSlots).filterMap fun slotId =>
    if slotId ∉ old ∧ slotId ∈ new then
      some (.setSlotState instrOffset slotId true)
    else if slotId ∈ old ∧ slotId ∉ new then
      some (.setSlotState instrOffset slotId false)
    else none

/-- One iteration of the record loop of `GcInfoEmitter::encodeLiveness`
(GcInfo.cpp:443-564): note the call site, process the locations starting from
an empty new live set, emit the liveness diff against the previous live set,
and return the new live set as the next baseline (`OldLiveSet = NewLiveSet;
NewLiveSet = false`). -/
def processRecord (numPinnedSlots offsetCorrection : Nat) (st : EmitState)
    (oldLiveSet : List Nat) (r : SafepointRecord) :
    Except GcErr (EmitState × List Nat) := do
  let instrOffset := instructionOffsetOf r.instructionOffset offsetCorrection
  let st := { st with callSites := st.callSites ++ [instrOffset] }
  let (st, newLiveSet) ← processLocations numPinnedSlots (st, []) r.locations
  let st := { st with
    events := st.events ++ diffEvents instrOffset st.slotMap.length oldLiveSet newLiveSet }
  .ok (st, newLiveSet)

/-- The `for (const auto &R : StackMapParser.records())` loop (GcInfo.cpp:443):
each record's resulting live set is the baseline for the next record. -/
def processRecords (numPinnedSlots offsetCorrection : Nat) (st : EmitState)
    (oldLiveSet : List Nat) : List SafepointRecord → Except GcErr EmitState
  | [] => .ok st
  | r :: rest => do
      let (st, newLiveSet) ← processRecord numPinnedSlots offsetCorrection st oldLiveSet r
      processRecords numPinnedSlots offsetCorrection st newLiveSet rest

/-- `GcInfoEmitter::encodeLiveness` (GcInfo.cpp:354-572): return immediately
when there is no stack-map data; otherwise require a single-function stream,
take the already-allocated slots as the pinned-slot count, and scan the
safepoint records starting from an empty baseline live set. -/
def encodeLiveness (stackMap : Option StackMap) (offsetCorrection : Nat)
    (st : EmitState) : Except GcErr EmitState :=
  match stackMap with
  | none => .ok st
  | some sm =>
      if sm.numFunctions = 1 then
        processRecords st.slotMap.length offsetCorrection st [] sm.records
      else .error .multipleFunctions

/-- The inner `for (uint32_t GcPtrOffset : GcPtrOffsets)` loop of
`GcInfoEmitter::encodeGcAggregates` (GcInfo.cpp:628-642): allocate one
untracked slot per reference field at aggregate base plus field offset. -/
def allocAggregateSlots (st : EmitState) : List Int → Except GcErr EmitState
  | [] => .ok st
  | offset :: rest =>
      if (lookupSlot st offset).isSome then .error .untrackedAlreadyAllocated
      else allocAggregateSlots (allocateSlot st offset untrackedFlags) rest

/-- A GC aggregate as recorded in `GcFuncInfo`: the alloca's allocated type
and its resolved stack offset. -/
structure GcAggregate where
  type : Ty
  offset : Int

/-- `GcInfoEmitter::encodeGcAggregates` (GcInfo.cpp:604-650): for each
aggregate (which must be a struct with a resolved offset), obtain its
reference-field offsets from the layout resolver and allocate one untracked
slot per field. -/
def encodeGcAggregates (L : DataLayout) (st : EmitState) :
    List GcAggregate → Except GcErr EmitState
  | [] => .ok st
  | agg :: rest => do
      match agg.type with
      | .struct fields =>
          if agg.offset = GcInfo.InvalidPointerOffset then .error .aggregateNotFound
          else do
            let gcPtrOffsets := GcInfo.getGcPointers L fields
            let st ← allocAggregateSlots st (gcPtrOffsets.map (fun p => agg.offset + Int.ofNat p))
            encodeGcAggregates L st rest
      | _ => .error .aggregateNotStruct

/-- `GcInfoEmitter::finalizeEncoding` (GcInfo.cpp:652-660): finalize slot
identifiers and define the call sites. -/
def finalizeEncoding (st : EmitState) : EmitState :=
  { st with events := st.events ++ [.finalizeSlotIds, .defineCallSites st.callSites CallSiteSize] }

/-- `GcInfoEmitter::emitEncoding` (GcInfo.cpp:662-665): build and emit. -/
def emitEncoding (st : EmitState) : EmitState :=
  { st with events := st.events ++ [.build, .emitTable] }

/-- The fields of `GcFuncInfo` that `emitGCInfo` consumes: pinned slot offsets
and GC aggregates. -/
structure GcFuncInfoModel where
  pinnedSlots : List Int
  gcAggregates : List GcAggregate

/-- `GcInfoEmitter::emitGCInfo` (GcInfo.cpp:674-691): header, then (when
statepoints are inserted) pinned slots, the liveness scan, aggregate slots and
finalization, then build/emit. -/
def emitGCInfo (doInsertStatepoints : Bool) (L : DataLayout) (hotCodeSize : Nat)
    (stackBaseIsFramePointer : Bool) (gcFuncInfo : GcFuncInfoModel)
    (stackMap : Option StackMap) (offsetCorrection : Nat) :
    Except GcErr EmitState := do
  let st := encodeHeader hotCodeSize stackBaseIsFramePointer initState
  let st ←
    if doInsertStatepoints then do
      let st ← encodePinned gcFuncInfo.pinnedSlots st
      let st ← encodeLiveness stackMap offsetCorrection st
      let st ← encodeGcAggregates L st gcFuncInfo.gcAggregates
      pure (finalizeEncoding st)
    else pure st
  pure (emitEncoding st)

end GcInfoEmitter

/-! ## ABI signatures and call lowering (lib/Reader/abisignature.cpp)

IR values are represented symbolically: address computations
(`getFieldAddress`, pointer casts, relocation handles) are pure values, and
the builder trace records the loads, stores and calls that are emitted.
`ABISignature::coerce` may materialize a value through fresh temporaries; its
result is abstracted as `Val.coerced`. -/

namespace Abi

/-- `CorInfoCallConv` values distinguished by the resolver. -/
inductive CorInfoCallConv where
  | default
  | c
  | stdcall
  | thiscall
  | fastcall
  | varargs
deriving DecidableEq, Repr

/-- The LLVM-level calling conventions produced by the resolver. -/
inductive CC where
  | c
  | x86StdCall
  | x86ThisCall
  | x86FastCall
  | clrVirtualDispatchStub
  | clrSecretParameter
deriving DecidableEq, Repr

/-- `getLLVMCallingConv` (abisignature.cpp:37-52): maps the runtime calling
convention to the LLVM one and reports whether it is the runtime's own managed
(default) convention. -/
def getLLVMCallingConv : CorInfoCallConv → CC × Bool
  | .stdcall => (.x86StdCall, false)
  | .thiscall => (.x86ThisCall, false)
  | .fastcall => (.x86FastCall, false)
  | .default => (.c, true)
  | _ => (.c, false)

/-- `getNormalizedCallingConvention` (abisignature.cpp:54-67): on X86-64 the
native conventions stdcall/thiscall/fastcall are all treated as C. -/
def getNormalizedCallingConvention : CorInfoCallConv → CorInfoCallConv
  | .stdcall => .c
  | .thiscall => .c
  | .fastcall => .c
  | cc => cc

/-- `ABIArgInfo::Kind` (abi.h): machine-level passing class of an argument or
result. -/
inductive ABIArgKind where
  | direct
  | zeroExtend
  | signExtend
  | indirect
deriving DecidableEq, Repr

/-- Symbolic IR values. -/
inductive Val where
  | undef
  | constNat (n : Nat)
  | arg (i : Nat)
  | temp (i : Nat)
  | coerced (v : Val)
  | secretParam
  | indirectResultParam
  | callFrame
  | thread
  | loadOf (a : Val)
  | fieldAddr (base : Val) (offset : Nat)
  | threadTrapAddr
  | pauseHelper
  | nullPtr
  | gcStatepointFn
  | gcResultFn
  | callResult
deriving DecidableEq, Repr

/-- The instructions the lowering emits through the IR builder. -/
inductive Instr where
  | load (addr : Val)
  | store (value : Val) (addr : Val)
  | call (callee : Val) (args : List Val)
deriving DecidableEq, Repr

/-- The `CORINFO_EE_INFO` field offsets consumed by `emitUnmanagedCall`. -/
structure EEInfo where
  offsetOfCallTarget : Nat
  offsetOfFrameVptr : Nat
  offsetOfFrameLink : Nat
  offsetOfReturnAddress : Nat
  offsetOfThreadFrame : Nat
  offsetOfGCState : Nat
deriving DecidableEq, Repr

/-- `StatepointFlags::GCTransition`. -/
def GCTransitionFlag : Nat := 1

/-- `const uint32_t PrefixArgCount = 5` (abisignature.cpp:261). -/
def PrefixArgCount : Nat := 5

/-- `const uint32_t TransitionArgCount = 4` (abisignature.cpp:262). -/
def TransitionArgCount : Nat := 4

/-- `const uint32_t PostfixArgCount = TransitionArgCount + 2`
(abisignature.cpp:263). -/
def PostfixArgCount : Nat := TransitionArgCount + 2

/-- The `for (I = 0, J = PrefixArgCount; I < TargetArgCount; I++, J++)` loop
(abisignature.cpp:277-279): write the target arguments at consecutive indices
starting at `j`. -/
def setCallArgs : List Val → Nat → List Val → List Val
  | l, _, [] => l
  | l, j, a :: rest => setCallArgs (l.set j a) (j + 1) rest

/-- Assembly of `IntrinsicArgs` for the `experimental_gc_statepoint` intrinsic
(abisignature.cpp:256-289): id, nop bytes, call target, argument count, GC
transition flag, the target arguments, the transition argument count (4), the
four transition arguments, and the deopt argument count (0). -/
def buildIntrinsicArgs (target : Val) (arguments : List Val)
    (retAddrAddr gcStateAddr trapAddr pauseAddr : Val) : List Val :=
  let targetArgCount := arguments.length
  let init : List Val := List.replicate (PrefixArgCount + targetArgCount + PostfixArgCount) .undef
  let l := ((((init.set 0 (.constNat 0)).set 1 (.constNat 0)).set 2 target).set 3
      (.constNat targetArgCount)).set 4 (.constNat GCTransitionFlag)
  let l := setCallArgs l PrefixArgCount arguments
  let j := PrefixArgCount + targetArgCount
  (((((l.set j (.constNat TransitionArgCount)).set (j + 1) retAddrAddr).set (j + 2)
      gcStateAddr).set (j + 3) trapAddr).set (j + 4) pauseAddr).set (j + 5) (.constNat 0)

/-- `ABICallSignature::emitUnmanagedCall` (abisignature.cpp:157-311): store
the secret parameter into the frame's call-target field if the caller has
one; link the interop call frame onto the thread's frame chain; issue the
call as a GC-transition statepoint carrying the four transition argument
addresses; read the call result if any; clear the frame's return-address
field and unlink the frame from the thread's frame chain. -/
def emitUnmanagedCall (ee : EEInfo) (hasSecretParameter funcResultVoid : Bool)
    (target : Val) (arguments : List Val) : List Instr :=
  let threadBase := Val.loadOf Val.thread
  let frameVPtr := Val.fieldAddr Val.callFrame ee.offsetOfFrameVptr
  let threadFrameAddress := Val.fieldAddr threadBase ee.offsetOfThreadFrame
  let returnAddressAddress := Val.fieldAddr Val.callFrame ee.offsetOfReturnAddress
  let gcStateAddress := Val.fieldAddr threadBase ee.offsetOfGCState
  let frameLinkAddress := Val.fieldAddr Val.callFrame ee.offsetOfFrameLink
  (if hasSecretParameter then
    [Instr.store Val.secretParam (Val.fieldAddr Val.callFrame ee.offsetOfCallTarget)]
  else [])
  ++ [Instr.load Val.thread,
      Instr.store frameVPtr threadFrameAddress,
      Instr.call Val.gcStatepointFn
        (buildIntrinsicArgs target arguments returnAddressAddress gcStateAddress
          Val.threadTrapAddr Val.pauseHelper)]
  ++ (if funcResultVoid then [] else [Instr.call Val.gcResultFn [Val.callResult]])
  ++ [Instr.store Val.nullPtr returnAddressAddress,
      Instr.load frameLinkAddress,
      Instr.store (Val.loadOf frameLinkAddress) threadFrameAddress]

/-- Fatal conditions (C++ `assert`s) in `ABICallSignature::emitCall`. -/
inductive AbiErr where
  | multipleSpecialArgs
  | indirectionCellConvNotDefault
  | secretParamConvNotDefault
deriving DecidableEq, Repr

/-- The `for (auto Arg : Args)` placement loop of `ABICallSignature::emitCall`
(abisignature.cpp:395-446): starting at index `i` (the special-argument
count), skip the indirect-result index, and place each argument — for a
non-jmp indirect argument a fresh temporary is written with the argument's
value and passed by address; otherwise the (possibly coerced) value is passed
directly. -/
def placeArgs (isJmp : Bool) (resultIndex : Int) :
    List (ABIArgKind × Val) → List Val → List Instr → Nat → List Val × List Instr
  | [], arguments, tr, _ => (arguments, tr)
  | (kind, arg) :: rest, arguments, tr, i =>
      let i := if resultIndex ≥ 0 && i == resultIndex.toNat then i + 1 else i
      match kind with
      | .indirect =>
          if isJmp then
            placeArgs isJmp resultIndex rest (arguments.set i arg) tr (i + 1)
          else
            placeArgs isJmp resultIndex rest (arguments.set i (Val.temp i))
              (tr ++ [Instr.store arg (Val.temp i)]) (i + 1)
      | _ =>
          placeArgs isJmp resultIndex rest (arguments.set i (Val.coerced arg)) tr (i + 1)

/-- Inputs of `ABICallSignature::emitCall`: the signature classification and
call-site specific data. -/
structure CallInput where
  callConv : CorInfoCallConv
  hasThis : Bool
  resultKind : ABIArgKind
  argKinds : List ABIArgKind
  args : List Val
  indirectionCell : Option Val
  isJmp : Bool
  callerHasSecretParameter : Bool
  sigResultVoid : Bool
  resultIsStruct : Bool
deriving Repr

/-- Outcome of `ABICallSignature::emitCall`: the emitted instruction trace,
the final machine-level argument list, the indirect-result position (-1 when
there is none) and the call's calling-convention tag. -/
structure CallOutput where
  trace : List Instr
  arguments : List Val
  resultIndex : Int
  cc : CC
deriving DecidableEq, Repr

/-- `NumSpecialArgs` (abisignature.cpp:331-334). -/
def numSpecialArgsOf (inp : CallInput) : Nat :=
  if inp.indirectionCell.isSome || (inp.isJmp && inp.callerHasSecretParameter) then 1 else 0

/-- `ABICallSignature::emitCall` (abisignature.cpp:313-511): place the
optional special argument first, the indirect-result pointer at the position
after the special arguments and the receiver, then the remaining arguments;
dispatch to `emitUnmanagedCall` for non-default calling conventions; select
the calling-convention tag; read back the result. -/
def emitCall (ee : EEInfo) (target : Val) (inp : CallInput) :
    Except AbiErr CallOutput := do
  let hasIndirectResult := inp.resultKind == ABIArgKind.indirect
  let hasIndirectionCell := inp.indirectionCell.isSome
  let isUnmanagedCall := inp.callConv ≠ CorInfoCallConv.default
  let isJmpWithSecretParam := inp.isJmp && inp.callerHasSecretParameter
  if ¬ ((if hasIndirectionCell then 1 else 0) + (if isUnmanagedCall then 1 else 0) +
      (if isJmpWithSecretParam then 1 else 0) ≤ 1) then
    .error .multipleSpecialArgs
  else do
    let numSpecialArgs := numSpecialArgsOf inp
    let numExtraArgs := (if hasIndirectResult then 1 else 0) + numSpecialArgs
    let numArgs := inp.args.length + numExtraArgs
    let arguments : List Val := List.replicate numArgs .undef
    let arguments :=
      match inp.indirectionCell with
      | some cell => arguments.set 0 cell
      | none => if isJmpWithSecretParam then arguments.set 0 Val.secretParam else arguments
    let resultIndex : Int :=
      if hasIndirectResult then
        ((numSpecialArgs + (if inp.hasThis then 1 else 0) : Nat) : Int)
      else -1
    let resultNode : Option Val :=
      if hasIndirectResult then
        some (if inp.isJmp then Val.indirectResultParam else Val.temp resultIndex.toNat)
      else none
    let arguments :=
      match resultNode with
      | some node => arguments.set resultIndex.toNat node
      | none => arguments
    let placed :=
      placeArgs inp.isJmp resultIndex (inp.argKinds.zip inp.args) arguments [] numSpecialArgs
    let arguments := placed.1
    let setupTrace := placed.2
    let funcResultVoid := !hasIndirectResult && inp.sigResultVoid
    let callTrace :=
      if isUnmanagedCall then
        emitUnmanagedCall ee inp.callerHasSecretParameter funcResultVoid target arguments
      else
        [Instr.call target arguments]
    let cc ←
      if hasIndirectionCell then
        if inp.callConv = CorInfoCallConv.default then pure CC.clrVirtualDispatchStub
        else .error .indirectionCellConvNotDefault
      else if isJmpWithSecretParam then
        if inp.callConv = CorInfoCallConv.default then pure CC.clrSecretParameter
        else .error .secretParamConvNotDefault
      else
        pure (getLLVMCallingConv (getNormalizedCallingConvention inp.callConv)).1
    let resultTrace :=
      match resultNode with
      | some node => if inp.resultIsStruct then [] else [Instr.load node]
      | none => []
    .ok ⟨setupTrace ++ callTrace ++ resultTrace, arguments, resultIndex, cc⟩

/-- Parameter-type markers for `ABIMethodSignature::createFunction`. -/
inductive ParamTy where
  | unset
  | indirectResultPtr
  | managedPtrOfArg (j : Nat)
  | directArg (j : Nat)
deriving DecidableEq, Repr

/-- The parameter-type placement loop of `ABIMethodSignature::createFunction`
(abisignature.cpp:548-576), with the same indirect-result skip as the call
placement loop. -/
def placeParamTypes (resultIndex : Int) :
    List (ABIArgKind × Nat) → List ParamTy → Nat → List ParamTy
  | [], paramTypes, _ => paramTypes
  | (kind, j) :: rest, paramTypes, i =>
      let i := if resultIndex ≥ 0 && i == resultIndex.toNat then i + 1 else i
      match kind with
      | .indirect => placeParamTypes resultIndex rest (paramTypes.set i (.managedPtrOfArg j)) (i + 1)
      | _ => placeParamTypes resultIndex rest (paramTypes.set i (.directArg j)) (i + 1)

/-- Outcome of `ABIMethodSignature::createFunction`: the function's parameter
types, the indirect-result position (-1 when none) and calling convention. -/
structure FunctionOutput where
  paramTypes : List ParamTy
  resultIndex : Int
  cc : CC
deriving DecidableEq, Repr

/-- `ABIMethodSignature::createFunction` (abisignature.cpp:519-604): an
indirect result becomes a managed-pointer parameter placed after the receiver
if the signature has one; remaining parameters follow in order; the calling
convention carries the secret parameter when the signature has one. -/
def createFunction (hasThis : Bool) (resultKind : ABIArgKind)
    (argKinds : List ABIArgKind) (hasSecretParameter : Bool) : FunctionOutput :=
  let hasIndirectResult := resultKind == ABIArgKind.indirect
  let numExtraArgs := if hasIndirectResult then 1 else 0
  let numArgs := argKinds.length + numExtraArgs
  let paramTypes : List ParamTy := List.replicate numArgs .unset
  let resultIndex : Int := if hasIndirectResult then (if hasThis then 1 else 0) else -1
  let paramTypes :=
    if hasIndirectResult then paramTypes.set resultIndex.toNat .indirectResultPtr
    else paramTypes
  let paramTypes :=
    placeParamTypes resultIndex (argKinds.zip (List.range argKinds.length)) paramTypes 0
  let cc := if hasSecretParameter then CC.clrSecretParameter else CC.c
  ⟨paramTypes, resultIndex, cc⟩

end Abi

/-! ## Derived definitions used by the statements below -/

namespace GcInfoEmitter

/-- Projection of an encoder event trace to the slot allocations it contains:
the assigned identifier and the flags, in emission order. -/
def allocIdFlags : List EncEvent → List (Nat × SlotFlags)
  | [] => []
  | .allocSlot slotId _ flags :: rest => (slotId, flags) :: allocIdFlags rest
  | _ :: rest => allocIdFlags rest

/-- Well-formedness of the slot table: every assigned identifier is below the
slot count.  This holds for every state reachable from `initState`. -/
def SlotMapWF (st : EmitState) : Prop :=
  ∀ p ∈ st.slotMap, p.2 < st.slotMap.length

instance (st : EmitState) : Decidable (SlotMapWF st) := by
  unfold SlotMapWF; infer_instance

end GcInfoEmitter

namespace Abi

/-- Address of the thread's frame-chain field (`ThreadFrameAddress`,
abisignature.cpp:194-195). -/
def threadFrameAddr (ee : EEInfo) : Val :=
  .fieldAddr (.loadOf .thread) ee.offsetOfThreadFrame

/-- Address of the thread's GC-mode field (`GCStateAddress`,
abisignature.cpp:203-204). -/
def gcStateAddr (ee : EEInfo) : Val :=
  .fieldAddr (.loadOf .thread) ee.offsetOfGCState

/-- Address of the interop frame's return-address field
(`ReturnAddressAddress`, abisignature.cpp:199-200). -/
def retAddrAddr (ee : EEInfo) : Val :=
  .fieldAddr .callFrame ee.offsetOfReturnAddress

/-- The interop frame's vtable pointer (`FrameVPtr`, abisignature.cpp:191). -/
def frameVPtrVal (ee : EEInfo) : Val :=
  .fieldAddr .callFrame ee.offsetOfFrameVptr

/-- Address of the interop frame's frame-link field (`FrameLinkAddress`,
abisignature.cpp:305-306). -/
def frameLinkAddr (ee : EEInfo) : Val :=
  .fieldAddr .callFrame ee.offsetOfFrameLink

/-- A store to the thread's frame-chain field (frame link or unlink). -/
def isFrameChainStore (ee : EEInfo) : Instr → Bool
  | .store _ a => a == threadFrameAddr ee
  | _ => false

/-- A store to the thread's GC-mode field. -/
def isGCModeStore (ee : EEInfo) : Instr → Bool
  | .store _ a => a == gcStateAddr ee
  | _ => false

end Abi

/-! ## Helper lemmas about the emitter -/

namespace GcInfoEmitter

theorem allocIdFlags_append (l₁ l₂ : List EncEvent) :
    allocIdFlags (l₁ ++ l₂) = allocIdFlags l₁ ++ allocIdFlags l₂ := by
  induction l₁ with
  | nil => rfl
  | cons e rest ih => cases e <;> simp [allocIdFlags, ih]

theorem allocIdFlags_eq_nil (l : List EncEvent)
    (h : ∀ e ∈ l, ∀ id off flags, e ≠ EncEvent.allocSlot id off flags) :
    allocIdFlags l = [] := by
  induction l with
  | nil => rfl
  | cons e rest ih =>
      cases e with
      | allocSlot id off flags => exact absurd rfl (h _ (List.mem_cons_self _ _) id off flags)
      | _ =>
          simp only [allocIdFlags]
          exact ih fun e he => h e (List.mem_cons_of_mem _ he)

theorem lookupSlot_lt_of_wf {st : EmitState} (hwf : SlotMapWF st) {off : Int} {id : Nat}
    (h : lookupSlot st off = some id) : id < st.slotMap.length := by
  unfold lookupSlot at h
  rcases Option.map_eq_some'.mp h with ⟨p, hfind, hp⟩
  exact hp ▸ hwf p (List.mem_of_find?_eq_some hfind)

theorem slotMapWF_allocateSlot {st : EmitState} (hwf : SlotMapWF st) (off : Int)
    (flags : SlotFlags) : SlotMapWF (allocateSlot st off flags) := by
  intro p hp
  simp only [allocateSlot, List.length_append, List.length_cons, List.length_nil] at hp ⊢
  rcases List.mem_append.mp hp with hp | hp
  · exact Nat.lt_succ_of_lt (hwf p hp)
  · simp only [List.mem_singleton] at hp
    subst hp
    exact Nat.lt_succ_self _

theorem mem_insertLive {ls : List Nat} {slotId i : Nat} (h : i ∈ insertLive ls slotId) :
    i ∈ ls ∨ i = slotId := by
  unfold insertLive at h
  split at h
  · exact Or.inl h
  · rcases List.mem_append.mp h with h | h
    · exact Or.inl h
    · simp only [List.mem_singleton] at h
      exact Or.inr h

theorem processLocation_spec {np : Nat} {st : EmitState} {ls : List Nat} {loc : LocationKind}
    {st' : EmitState} {ls' : List Nat}
    (hwf : SlotMapWF st)
    (h : processLocation np (st, ls) loc = .ok (st', ls')) :
    st'.callSites = st.callSites ∧
    st.slotMap.length ≤ st'.slotMap.length ∧
    SlotMapWF st' ∧
    (∃ evts, st'.events = st.events ++ evts ∧
      allocIdFlags evts =
        (List.range' st.slotMap.length (st'.slotMap.length - st.slotMap.length)).map
          (fun i => (i, trackedFlags)) ∧
      ∀ e ∈ evts, ∃ id off, e = EncEvent.allocSlot id off trackedFlags) ∧
    (∀ i ∈ ls', i ∈ ls ∨ (np ≤ i ∧ i < st'.slotMap.length)) := by
  cases loc with
  | constant =>
      cases h
      exact ⟨rfl, Nat.le_refl _, hwf,
        ⟨[], by simp, by simp [allocIdFlags], by simp⟩, fun i hi => Or.inl hi⟩
  | constantIndex =>
      cases h
      exact ⟨rfl, Nat.le_refl _, hwf,
        ⟨[], by simp, by simp [allocIdFlags], by simp⟩, fun i hi => Or.inl hi⟩
  | register => cases h
  | indirect reg off => cases h
  | direct reg off =>
      simp only [processLocation] at h
      split at h
      · cases h
      · cases hl : lookupSlot st off with
        | none =>
            rw [hl] at h
            simp only at h
            cases h
            refine ⟨rfl, by simp [allocateSlot],
              slotMapWF_allocateSlot hwf off trackedFlags,
              ⟨[EncEvent.allocSlot st.slotMap.length off trackedFlags], by simp [allocateSlot],
                ?_, by simp⟩, ?_⟩
            · simp [allocateSlot, allocIdFlags]
            · intro i hi
              split at hi
              · rcases mem_insertLive hi with hi | hi
                · exact Or.inl hi
                · subst hi
                  refine Or.inr ⟨by assumption, by simp [allocateSlot]⟩
              · exact Or.inl hi
        | some id =>
            rw [hl] at h
            simp only at h
            cases h
            refine ⟨rfl, Nat.le_refl _, hwf,
              ⟨[], by simp, by simp [allocIdFlags], by simp⟩, ?_⟩
            intro i hi
            split at hi
            · rcases mem_insertLive hi with hi | hi
              · exact Or.inl hi
              · subst hi
                exact Or.inr ⟨by assumption, lookupSlot_lt_of_wf hwf hl⟩
            · exact Or.inl hi

theorem range'_map_glue (n k₁ k₂ : Nat) (f : Nat → α) :
    (List.range' n k₁).map f ++ (List.range' (n + k₁) k₂).map f =
      (List.range' n (k₁ + k₂)).map f := by
  rw [← List.map_append]
  have h := List.range'_append n k₁ k₂ 1
  simp only [Nat.one_mul] at h
  rw [h, Nat.add_comm k₂ k₁]

theorem processLocations_spec {np : Nat} :
    ∀ {locs : List LocationKind} {st : EmitState} {ls : List Nat}
      {st' : EmitState} {ls' : List Nat},
    SlotMapWF st →
    processLocations np (st, ls) locs = .ok (st', ls') →
    st'.callSites = st.callSites ∧
    st.slotMap.length ≤ st'.slotMap.length ∧
    SlotMapWF st' ∧
    (∃ evts, st'.events = st.events ++ evts ∧
      allocIdFlags evts =
        (List.range' st.slotMap.length (st'.slotMap.length - st.slotMap.length)).map
          (fun i => (i, trackedFlags)) ∧
      ∀ e ∈ evts, ∃ id off, e = EncEvent.allocSlot id off trackedFlags) ∧
    (∀ i ∈ ls', i ∈ ls ∨ (np ≤ i ∧ i < st'.slotMap.length)) := by
  intro locs
  induction locs with
  | nil =>
      intro st ls st' ls' hwf h
      cases h
      exact ⟨rfl, Nat.le_refl _, hwf,
        ⟨[], by simp, by simp [allocIdFlags], by simp⟩, fun i hi => Or.inl hi⟩
  | cons loc rest ih =>
      intro st ls st' ls' hwf h
      simp only [processLocations, bind, Except.bind] at h
      cases h1 : processLocation np (st, ls) loc with
      | error e => rw [h1] at h; cases h
      | ok acc1 =>
          rw [h1] at h
          obtain ⟨st1, ls1⟩ := acc1
          obtain ⟨hcs1, hle1, hwf1, ⟨evts1, hev1, haf1, hsh1⟩, hls1⟩ :=
            processLocation_spec hwf h1
          obtain ⟨hcs2, hle2, hwf2, ⟨evts2, hev2, haf2, hsh2⟩, hls2⟩ := ih hwf1 h
          refine ⟨hcs2.trans hcs1, hle1.trans hle2, hwf2,
            ⟨evts1 ++ evts2, by rw [hev2, hev1, List.append_assoc], ?_, ?_⟩, ?_⟩
          · rw [allocIdFlags_append, haf1, haf2]
            have hglue := range'_map_glue st.slotMap.length
              (st1.slotMap.length - st.slotMap.length)
              (st'.slotMap.length - st1.slotMap.length)
              (fun i => (i, trackedFlags))
            rw [show st.slotMap.length + (st1.slotMap.length - st.slotMap.length) =
                  st1.slotMap.length by omega] at hglue
            rw [show st1.slotMap.length - st.slotMap.length +
                  (st'.slotMap.length - st1.slotMap.length) =
                  st'.slotMap.length - st.slotMap.length by omega] at hglue
            exact hglue
          · intro e he
            rcases List.mem_append.mp he with he | he
            · exact hsh1 e he
            · exact hsh2 e he
          · intro i hi
            rcases hls2 i hi with hi' | hi'
            · rcases hls1 i hi' with h2 | h2
              · exact Or.inl h2
              · exact Or.inr ⟨h2.1, Nat.lt_of_lt_of_le h2.2 hle2⟩
            · exact Or.inr hi'

theorem diffEvents_mem_shape {io n : Nat} {old nw : List Nat} {e : EncEvent}
    (h : e ∈ diffEvents io n old nw) : ∃ s b, s < n ∧ e = EncEvent.setSlotState io s b := by
  unfold diffEvents at h
  rcases List.mem_filterMap.mp h with ⟨s, hs, hfs⟩
  have hsn := List.mem_range.mp hs
  split at hfs
  · cases hfs; exact ⟨s, true, hsn, rfl⟩
  · split at hfs
    · cases hfs; exact ⟨s, false, hsn, rfl⟩
    · cases hfs

theorem diffEvents_count_live (io n : Nat) (old nw : List Nat) (s : Nat) :
    (diffEvents io n old nw).count (EncEvent.setSlotState io s true) =
      if s < n ∧ s ∈ nw ∧ s ∉ old then 1 else 0 := by
  induction n with
  | zero => simp [diffEvents]
  | succ n ih =>
      unfold diffEvents at ih ⊢
      rw [List.range_succ, List.filterMap_append, List.count_append, ih]
      by_cases h1 : n ∈ nw <;> by_cases h2 : n ∈ old <;>
        by_cases h3 : s ∈ nw <;> by_cases h4 : s ∈ old <;>
        by_cases hsn : s = n <;>
        subst_eqs <;>
        simp_all [List.filterMap, List.count_cons, List.count_nil,
          Nat.lt_succ_iff_lt_or_eq]

theorem diffEvents_count_dead (io n : Nat) (old nw : List Nat) (s : Nat) :
    (diffEvents io n old nw).count (EncEvent.setSlotState io s false) =
      if s < n ∧ s ∈ old ∧ s ∉ nw then 1 else 0 := by
  induction n with
  | zero => simp [diffEvents]
  | succ n ih =>
      unfold diffEvents at ih ⊢
      rw [List.range_succ, List.filterMap_append, List.count_append, ih]
      by_cases h1 : n ∈ nw <;> by_cases h2 : n ∈ old <;>
        by_cases h3 : s ∈ nw <;> by_cases h4 : s ∈ old <;>
        by_cases hsn : s = n <;>
        subst_eqs <;>
        simp_all [List.filterMap, List.count_cons, List.count_nil,
          Nat.lt_succ_iff_lt_or_eq]

theorem processRecord_spec {np c : Nat} {st : EmitState} {old : List Nat}
    {r : SafepointRecord} {st' : EmitState} {nw : List Nat}
    (hwf : SlotMapWF st)
    (h : processRecord np c st old r = .ok (st', nw)) :
    st'.callSites = st.callSites ++ [instructionOffsetOf r.instructionOffset c] ∧
    st.slotMap.length ≤ st'.slotMap.length ∧
    SlotMapWF st' ∧
    (∃ evtsLoc, st'.events = st.events ++ evtsLoc ++
        diffEvents (instructionOffsetOf r.instructionOffset c) st'.slotMap.length old nw ∧
      allocIdFlags evtsLoc =
        (List.range' st.slotMap.length (st'.slotMap.length - st.slotMap.length)).map
          (fun i => (i, trackedFlags)) ∧
      (∀ e ∈ evtsLoc, ∃ id off, e = EncEvent.allocSlot id off trackedFlags)) ∧
    (∀ i ∈ nw, np ≤ i ∧ i < st'.slotMap.length) := by
  simp only [processRecord, bind, Except.bind] at h
  cases hp : processLocations np
      ({ st with callSites := st.callSites ++ [instructionOffsetOf r.instructionOffset c] }, [])
      r.locations with
  | error e => rw [hp] at h; cases h
  | ok acc =>
      rw [hp] at h
      obtain ⟨st2, ls2⟩ := acc
      simp only [Except.ok.injEq, Prod.mk.injEq] at h
      obtain ⟨hst', hnw⟩ := h
      subst hnw
      have hwf1 : SlotMapWF
          ({ st with callSites := st.callSites ++ [instructionOffsetOf r.instructionOffset c] }) :=
        hwf
      obtain ⟨hcs2, hle2, hwf2, ⟨evts, hev2, haf2, hsh2⟩, hls2⟩ :=
        processLocations_spec hwf1 hp
      subst hst'
      refine ⟨hcs2, hle2, hwf2, ⟨evts, ?_, haf2, hsh2⟩, ?_⟩
      · rw [hev2]
      · intro i hi
        rcases hls2 i hi with hi' | hi'
        · cases hi'
        · exact hi'

theorem allocIdFlags_diffEvents (io n : Nat) (old nw : List Nat) :
    allocIdFlags (diffEvents io n old nw) = [] := by
  refine allocIdFlags_eq_nil _ fun e he id off flags hmm => ?_
  rcases diffEvents_mem_shape he with ⟨s, b, _, hb⟩
  rw [hmm] at hb
  cases hb

theorem processRecords_spec {np c : Nat} :
    ∀ {records : List SafepointRecord} {st : EmitState} {old : List Nat} {st' : EmitState},
    SlotMapWF st →
    processRecords np c st old records = .ok st' →
    st.slotMap.length ≤ st'.slotMap.length ∧
    SlotMapWF st' ∧
    ∃ evts, st'.events = st.events ++ evts ∧
      allocIdFlags evts =
        (List.range' st.slotMap.length (st'.slotMap.length - st.slotMap.length)).map
          (fun i => (i, trackedFlags)) ∧
      ∀ e ∈ evts, (∃ id off, e = EncEvent.allocSlot id off trackedFlags) ∨
        (∃ io s b, e = EncEvent.setSlotState io s b) := by
  intro records
  induction records with
  | nil =>
      intro st old st' hwf h
      cases h
      exact ⟨Nat.le_refl _, hwf, [], by simp, by simp [allocIdFlags], by simp⟩
  | cons r rest ih =>
      intro st old st' hwf h
      simp only [processRecords, bind, Except.bind] at h
      cases hp : processRecord np c st old r with
      | error e => rw [hp] at h; cases h
      | ok acc =>
          rw [hp] at h
          obtain ⟨st1, nw⟩ := acc
          obtain ⟨_, hle1, hwf1, ⟨evtsLoc, hev1, haf1, hsh1⟩, _⟩ := processRecord_spec hwf hp
          obtain ⟨hle2, hwf2, ⟨evts2, hev2, haf2, hsh2⟩⟩ := ih hwf1 h
          refine ⟨hle1.trans hle2, hwf2,
            (evtsLoc ++ diffEvents (instructionOffsetOf r.instructionOffset c)
              st1.slotMap.length old nw) ++ evts2, ?_, ?_, ?_⟩
          · rw [hev2, hev1]
            simp [List.append_assoc]
          · rw [allocIdFlags_append, allocIdFlags_append, haf1, haf2,
              allocIdFlags_diffEvents, List.append_nil]
            have hglue := range'_map_glue st.slotMap.length
              (st1.slotMap.length - st.slotMap.length)
              (st'.slotMap.length - st1.slotMap.length)
              (fun i => (i, trackedFlags))
            rw [show st.slotMap.length + (st1.slotMap.length - st.slotMap.length) =
                  st1.slotMap.length by omega] at hglue
            rw [show st1.slotMap.length - st.slotMap.length +
                  (st'.slotMap.length - st1.slotMap.length) =
                  st'.slotMap.length - st.slotMap.length by omega] at hglue
            exact hglue
          · intro e he
            rcases List.mem_append.mp he with he | he
            · rcases List.mem_append.mp he with he | he
              · exact Or.inl (hsh1 e he)
              · rcases diffEvents_mem_shape he with ⟨s, b, _, hb⟩
                exact Or.inr ⟨_, s, b, hb⟩
            · exact hsh2 e he

theorem encodeLiveness_spec {sm : Option StackMap} {c : Nat} {st st' : EmitState}
    (hwf : SlotMapWF st)
    (h : encodeLiveness sm c st = .ok st') :
    st.slotMap.length ≤ st'.slotMap.length ∧
    SlotMapWF st' ∧
    ∃ evts, st'.events = st.events ++ evts ∧
      allocIdFlags evts =
        (List.range' st.slotMap.length (st'.slotMap.length - st.slotMap.length)).map
          (fun i => (i, trackedFlags)) ∧
      ∀ e ∈ evts, (∃ id off, e = EncEvent.allocSlot id off trackedFlags) ∨
        (∃ io s b, e = EncEvent.setSlotState io s b) := by
  cases sm with
  | none =>
      cases h
      exact ⟨Nat.le_refl _, hwf, [], by simp, by simp [allocIdFlags], by simp⟩
  | some sm =>
      simp only [encodeLiveness] at h
      split at h
      · exact processRecords_spec hwf h
      · cases h

theorem encodePinned_spec :
    ∀ {pinned : List Int} {st st' : EmitState},
    encodePinned pinned st = .ok st' →
    st'.slotMap.length = st.slotMap.length + pinned.length ∧
    st'.callSites = st.callSites ∧
    (SlotMapWF st → SlotMapWF st') ∧
    ∃ evts, st'.events = st.events ++ evts ∧
      allocIdFlags evts =
        (List.range' st.slotMap.length pinned.length).map (fun i => (i, pinnedFlags)) ∧
      ∀ e ∈ evts, ∃ id off, e = EncEvent.allocSlot id off pinnedFlags := by
  intro pinned
  induction pinned with
  | nil =>
      intro st st' h
      cases h
      exact ⟨by simp, rfl, id, [], by simp, by simp [allocIdFlags, List.range'], by simp⟩
  | cons off rest ih =>
      intro st st' h
      simp only [encodePinned] at h
      split at h
      · cases h
      · split at h
        · cases h
        · obtain ⟨hlen, hcs, hwfp, ⟨evts, hev, haf, hsh⟩⟩ := ih h
          refine ⟨?_, ?_, ?_,
            EncEvent.allocSlot st.slotMap.length off pinnedFlags :: evts, ?_, ?_, ?_⟩
          · simp [allocateSlot] at hlen
            simp [hlen]
            omega
          · simpa [allocateSlot] using hcs
          · intro hwf
            exact hwfp (slotMapWF_allocateSlot hwf off pinnedFlags)
          · rw [hev]
            simp [allocateSlot]
          · simp only [allocIdFlags, haf]
            have : (allocateSlot st off pinnedFlags).slotMap.length =
                st.slotMap.length + 1 := by simp [allocateSlot]
            rw [this, List.length_cons, List.range'_succ, List.map_cons]
          · intro e he
            rcases List.mem_cons.mp he with he | he
            · exact ⟨st.slotMap.length, off, he⟩
            · exact hsh e he

theorem allocAggregateSlots_spec :
    ∀ {offsets : List Int} {st st' : EmitState},
    allocAggregateSlots st offsets = .ok st' →
    st'.slotMap.length = st.slotMap.length + offsets.length ∧
    st'.callSites = st.callSites ∧
    (SlotMapWF st → SlotMapWF st') ∧
    ∃ evts, st'.events = st.events ++ evts ∧
      allocIdFlags evts =
        (List.range' st.slotMap.length offsets.length).map (fun i => (i, untrackedFlags)) ∧
      ∀ e ∈ evts, ∃ id off, e = EncEvent.allocSlot id off untrackedFlags := by
  intro offsets
  induction offsets with
  | nil =>
      intro st st' h
      cases h
      exact ⟨by simp, rfl, id, [], by simp, by simp [allocIdFlags, List.range'], by simp⟩
  | cons off rest ih =>
      intro st st' h
      simp only [allocAggregateSlots] at h
      split at h
      · cases h
      · obtain ⟨hlen, hcs, hwfp, ⟨evts, hev, haf, hsh⟩⟩ := ih h
        refine ⟨?_, ?_, ?_,
          EncEvent.allocSlot st.slotMap.length off untrackedFlags :: evts, ?_, ?_, ?_⟩
        · simp [allocateSlot] at hlen
          simp [hlen]
          omega
        · simpa [allocateSlot] using hcs
        · intro hwf
          exact hwfp (slotMapWF_allocateSlot hwf off untrackedFlags)
        · rw [hev]
          simp [allocateSlot]
        · simp only [allocIdFlags, haf]
          have : (allocateSlot st off untrackedFlags).slotMap.length =
              st.slotMap.length + 1 := by simp [allocateSlot]
          rw [this, List.length_cons, List.range'_succ, List.map_cons]
        · intro e he
          rcases List.mem_cons.mp he with he | he
          · exact ⟨st.slotMap.length, off, he⟩
          · exact hsh e he

theorem encodeGcAggregates_spec {L : DataLayout} :
    ∀ {aggs : List GcAggregate} {st st' : EmitState},
    encodeGcAggregates L st aggs = .ok st' →
    st.slotMap.length ≤ st'.slotMap.length ∧
    st'.callSites = st.callSites ∧
    (SlotMapWF st → SlotMapWF st') ∧
    ∃ evts, st'.events = st.events ++ evts ∧
      allocIdFlags evts =
        (List.range' st.slotMap.length (st'.slotMap.length - st.slotMap.length)).map
          (fun i => (i, untrackedFlags)) ∧
      ∀ e ∈ evts, ∃ id off, e = EncEvent.allocSlot id off untrackedFlags := by
  intro aggs
  induction aggs with
  | nil =>
      intro st st' h
      cases h
      exact ⟨Nat.le_refl _, rfl, id, [], by simp, by simp [allocIdFlags], by simp⟩
  | cons agg rest ih =>
      intro st st' h
      simp only [encodeGcAggregates, bind, Except.bind] at h
      cases hagg : agg.type with
      | struct fields =>
          rw [hagg] at h
          simp only at h
          split at h
          · cases h
          · cases ha : allocAggregateSlots st
                ((GcInfo.getGcPointers L fields).map (fun p => agg.offset + Int.ofNat p)) with
            | error e => rw [ha] at h; cases h
            | ok st1 =>
                rw [ha] at h
                obtain ⟨hlen1, hcs1, hwfp1, ⟨evts1, hev1, haf1, hsh1⟩⟩ :=
                  allocAggregateSlots_spec ha
                obtain ⟨hle2, hcs2, hwfp2, ⟨evts2, hev2, haf2, hsh2⟩⟩ := ih h
                refine ⟨by omega, hcs2.trans hcs1, fun hwf => hwfp2 (hwfp1 hwf),
                  evts1 ++ evts2, ?_, ?_, ?_⟩
                · rw [hev2, hev1, List.append_assoc]
                · rw [allocIdFlags_append, haf1, haf2]
                  have hglue := range'_map_glue st.slotMap.length
                    (st1.slotMap.length - st.slotMap.length)
                    (st'.slotMap.length - st1.slotMap.length)
                    (fun i => (i, untrackedFlags))
                  rw [show st.slotMap.length + (st1.slotMap.length - st.slotMap.length) =
                        st1.slotMap.length by omega] at hglue
                  rw [show st1.slotMap.length - st.slotMap.length +
                        (st'.slotMap.length - st1.slotMap.length) =
                        st'.slotMap.length - st.slotMap.length by omega] at hglue
                  rw [show ((GcInfo.getGcPointers L fields).map
                        (fun p => agg.offset + Int.ofNat p)).length =
                        st1.slotMap.length - st.slotMap.length by omega]
                  exact hglue
                · intro e he
                  rcases List.mem_append.mp he with he | he
                  · exact hsh1 e he
                  · exact hsh2 e he
      | ptr a => rw [hagg] at h; cases h
      | int b => rw [hagg] at h; cases h
      | array e n => rw [hagg] at h; cases h
      | vector e n => rw [hagg] at h; cases h

theorem encodeHeader_spec (hcs : Nat) (fp : Bool) (st : EmitState) :
    (encodeHeader hcs fp st).slotMap = st.slotMap ∧
    (encodeHeader hcs fp st).callSites = st.callSites ∧
    ∃ evts, (encodeHeader hcs fp st).events = st.events ++ evts ∧
      allocIdFlags evts = [] ∧
      EncEvent.setCodeLength hcs ∈ evts ∧
      ∀ e ∈ evts, e = EncEvent.setCodeLength hcs ∨ e = EncEvent.setStackBaseRegister ∨
        e = EncEvent.setScratchAreaSize 0 := by
  cases fp with
  | false =>
      refine ⟨?_, ?_, [EncEvent.setCodeLength hcs, EncEvent.setScratchAreaSize 0],
        ?_, ?_, ?_, ?_⟩ <;> simp [encodeHeader, allocIdFlags]
  | true =>
      refine ⟨?_, ?_, [EncEvent.setCodeLength hcs, EncEvent.setStackBaseRegister,
        EncEvent.setScratchAreaSize 0], ?_, ?_, ?_, ?_⟩ <;> simp [encodeHeader, allocIdFlags]

theorem emitGCInfo_phases {L : DataLayout} {hcs : Nat} {fp : Bool}
    {gfi : GcFuncInfoModel} {sm : Option StackMap} {c : Nat} {st : EmitState}
    (h : emitGCInfo true L hcs fp gfi sm c = .ok st) :
    ∃ st1 st2 st3,
      encodePinned gfi.pinnedSlots (encodeHeader hcs fp initState) = .ok st1 ∧
      encodeLiveness sm c st1 = .ok st2 ∧
      encodeGcAggregates L st2 gfi.gcAggregates = .ok st3 ∧
      st = emitEncoding (finalizeEncoding st3) := by
  simp only [emitGCInfo, bind, Except.bind, if_true, pure, Except.pure] at h
  cases h1 : encodePinned gfi.pinnedSlots (encodeHeader hcs fp initState) with
  | error e => rw [h1] at h; cases h
  | ok st1 =>
      rw [h1] at h
      dsimp only at h
      cases h2 : encodeLiveness sm c st1 with
      | error e => rw [h2] at h; cases h
      | ok st2 =>
          rw [h2] at h
          dsimp only at h
          cases h3 : encodeGcAggregates L st2 gfi.gcAggregates with
          | error e => rw [h3] at h; cases h
          | ok st3 =>
              rw [h3] at h
              dsimp only at h
              cases h
              exact ⟨st1, st2, st3, rfl, h2, h3, rfl⟩

theorem processLocations_no_register {np : Nat} :
    ∀ {locs : List LocationKind} {acc : EmitState × List Nat}
      {acc' : EmitState × List Nat},
    processLocations np acc locs = .ok acc' → LocationKind.register ∉ locs := by
  intro locs
  induction locs with
  | nil => intro acc acc' h hmem; cases hmem
  | cons loc rest ih =>
      intro acc acc' h hmem
      simp only [processLocations, bind, Except.bind] at h
      cases h1 : processLocation np acc loc with
      | error e => rw [h1] at h; cases h
      | ok acc1 =>
          rw [h1] at h
          rcases List.mem_cons.mp hmem with hmem | hmem
          · subst hmem; cases h1
          · exact ih h hmem

theorem processRecords_no_register {np c : Nat} :
    ∀ {records : List SafepointRecord} {st : EmitState} {old : List Nat} {st' : EmitState},
    processRecords np c st old records = .ok st' →
    ∀ r ∈ records, LocationKind.register ∉ r.locations := by
  intro records
  induction records with
  | nil => intro st old st' h r hr; cases hr
  | cons r0 rest ih =>
      intro st old st' h r hr
      simp only [processRecords, bind, Except.bind] at h
      cases h1 : processRecord np c st old r0 with
      | error e => rw [h1] at h; cases h
      | ok acc =>
          rw [h1] at h
          rcases List.mem_cons.mp hr with hr | hr
          · subst hr
            simp only [processRecord, bind, Except.bind] at h1
            cases h2 : processLocations np
                ({ st with callSites := st.callSites ++
                    [instructionOffsetOf r.instructionOffset c] }, []) r.locations with
            | error e => rw [h2] at h1; cases h1
            | ok acc2 => exact processLocations_no_register h2
          · exact ih h r hr

/-- C2: for any two consecutive safepoint records with baseline live set `L1`
and newly computed live set `L2`, the liveness scan emits exactly one
become-live event per slot in `L2` minus `L1` and exactly one become-dead
event per slot in `L1` minus `L2`, no event for an unchanged slot, all at this
record's call-site offset; the baseline carried into the next record is `L2`,
and only slot identifiers at or above the pinned-slot count (and below the
slot count) appear in `L2`. -/
theorem c2_liveness_diff {np c : Nat} {st : EmitState} {L1 : List Nat}
    {r : SafepointRecord} {st' : EmitState} {L2 : List Nat}
    (hwf : SlotMapWF st)
    (h : processRecord np c st L1 r = .ok (st', L2)) :
    ∃ evts, st'.events = st.events ++ evts ∧
      (∀ s, evts.count
          (EncEvent.setSlotState (instructionOffsetOf r.instructionOffset c) s true) =
        if s < st'.slotMap.length ∧ s ∈ L2 ∧ s ∉ L1 then 1 else 0) ∧
      (∀ s, evts.count
          (EncEvent.setSlotState (instructionOffsetOf r.instructionOffset c) s false) =
        if s < st'.slotMap.length ∧ s ∈ L1 ∧ s ∉ L2 then 1 else 0) ∧
      (∀ io s b, EncEvent.setSlotState io s b ∈ evts →
        io = instructionOffsetOf r.instructionOffset c) ∧
      (∀ i ∈ L2, np ≤ i ∧ i < st'.slotMap.length) ∧
      (∀ rest, processRecords np c st L1 (r :: rest) = processRecords np c st' L2 rest) := by
  obtain ⟨hcs, hle, hwf', ⟨evtsLoc, hev, haf, hsh⟩, hmem⟩ := processRecord_spec hwf h
  have hcount0 : ∀ (s : Nat) (b : Bool),
      evtsLoc.count (EncEvent.setSlotState (instructionOffsetOf r.instructionOffset c) s b)
        = 0 := by
    intro s b
    refine List.count_eq_zero.mpr fun hmm => ?_
    obtain ⟨id, off, hshape⟩ := hsh _ hmm
    cases hshape
  refine ⟨evtsLoc ++
    diffEvents (instructionOffsetOf r.instructionOffset c) st'.slotMap.length L1 L2,
    by rw [hev, List.append_assoc], ?_, ?_, ?_, hmem, ?_⟩
  · intro s
    rw [List.count_append, hcount0, Nat.zero_add, diffEvents_count_live]
  · intro s
    rw [List.count_append, hcount0, Nat.zero_add, diffEvents_count_dead]
  · intro io s b hmm
    rcases List.mem_append.mp hmm with hmm | hmm
    · obtain ⟨id, off, hshape⟩ := hsh _ hmm
      cases hshape
    · rcases diffEvents_mem_shape hmm with ⟨s', b', _, hb⟩
      injection hb with h1 h2 h3
  · intro rest
    simp only [processRecords, bind, Except.bind, h]

/-- C7: for every safepoint record processed by the liveness scan, the
call-site offset noted for the encoder — used both for the record's call-site
entry and for every slot-state event it emits — is
`instructionOffsetOf reported offsetCorrection`, which (absent 32/64-bit
wrap-around) equals the record's reported offset plus the offset correction
minus the assumed call-instruction length `CallSiteSize`, which is exactly
2 bytes. -/
theorem c7_callsite_offset :
    (∀ (np c : Nat) (st : EmitState) (old : List Nat) (r : SafepointRecord)
       (st' : EmitState) (nw : List Nat),
      SlotMapWF st →
      processRecord np c st old r = .ok (st', nw) →
      st'.callSites = st.callSites ++ [instructionOffsetOf r.instructionOffset c] ∧
      (∀ io s b, EncEvent.setSlotState io s b ∈ st'.events →
        EncEvent.setSlotState io s b ∈ st.events ∨
        io = instructionOffsetOf r.instructionOffset c)) ∧
    (∀ reported c : Nat, reported < 2 ^ 32 → c < 2 ^ 64 →
      2 ≤ reported + c → reported + c - 2 < 2 ^ 32 →
      instructionOffsetOf reported c = reported + c - CallSiteSize) ∧
    CallSiteSize = 2 := by
  refine ⟨?_, ?_, rfl⟩
  · intro np c st old r st' nw hwf h
    obtain ⟨hcs, hle, hwf', ⟨evtsLoc, hev, haf, hsh⟩, hmem⟩ := processRecord_spec hwf h
    refine ⟨hcs, ?_⟩
    intro io s b hmm
    rw [hev] at hmm
    rcases List.mem_append.mp hmm with hmm | hmm
    · rcases List.mem_append.mp hmm with hmm | hmm
      · exact Or.inl hmm
      · obtain ⟨id, off, hshape⟩ := hsh _ hmm
        cases hshape
    · rcases diffEvents_mem_shape hmm with ⟨s', b', _, hb⟩
      rw [EncEvent.setSlotState.injEq] at hb
      exact Or.inr hb.1
  · intro reported c h32 h64 hge hlt
    unfold instructionOffsetOf CallSiteSize
    simp only [show (2 : Nat) ^ 32 = 4294967296 from by norm_num,
      show (2 : Nat) ^ 64 = 18446744073709551616 from by norm_num] at *
    omega

/-- C8: a live location of kind register (or of the unsupported indirect
kind) is a fatal condition that aborts encoding of the function — a GC table
is emitted only when no record contains a register location — while locations
of kind constant and constant-index are skipped without any effect on the
slot table or the live set; only stack-relative (direct) locations are
accepted as reference carriers. -/
theorem c8_register_fatal :
    (∀ (np : Nat) (acc : EmitState × List Nat),
      processLocation np acc .register = .error .gcPointerInRegister) ∧
    (∀ (np : Nat) (acc : EmitState × List Nat) (reg : Nat) (off : Int),
      processLocation np acc (.indirect reg off) = .error .unexpectedLocation) ∧
    (∀ (np : Nat) (acc : EmitState × List Nat),
      processLocation np acc .constant = .ok acc ∧
      processLocation np acc .constantIndex = .ok acc) ∧
    (∀ (L : DataLayout) (hcs : Nat) (fp : Bool) (gfi : GcFuncInfoModel)
       (sm : StackMap) (c : Nat) (st : EmitState),
      emitGCInfo true L hcs fp gfi (some sm) c = .ok st →
      ∀ r ∈ sm.records, LocationKind.register ∉ r.locations) := by
  refine ⟨fun _ _ => rfl, fun _ _ _ _ => rfl, fun _ _ => ⟨rfl, rfl⟩, ?_⟩
  intro L hcs fp gfi sm c st h r hr
  obtain ⟨st1, st2, st3, h1, h2, h3, hst⟩ := emitGCInfo_phases h
  simp only [encodeLiveness] at h2
  split at h2
  · exact processRecords_no_register h2 r hr
  · cases h2

/-- C9: every slot allocated during the liveness scan is registered with the
encoder carrying the conservative interior-pointer flag. -/
theorem c9_interior_flag {sm : Option StackMap} {c : Nat} {st st' : EmitState}
    (hwf : SlotMapWF st)
    (h : encodeLiveness sm c st = .ok st') :
    ∃ evts, st'.events = st.events ++ evts ∧
      ∀ id off flags, EncEvent.allocSlot id off flags ∈ evts →
        flags = trackedFlags ∧ flags.interior = true := by
  obtain ⟨hle, hwf', ⟨evts, hev, haf, hsh⟩⟩ := encodeLiveness_spec hwf h
  refine ⟨evts, hev, ?_⟩
  intro id off flags hmm
  rcases hsh _ hmm with ⟨id', off', hshape⟩ | ⟨io, s, b, hshape⟩
  · cases hshape
    exact ⟨rfl, rfl⟩
  · cases hshape

theorem range'_start_congr (f : Nat → α) (a b n : Nat) (h : a = b) :
    (List.range' a n).map f = (List.range' b n).map f := by rw [h]

/-- C1: for every function encoded by the GC table emitter with `P` pinned
slots, `T` tracked slots discovered during the liveness scan and `A`
aggregate-derived slots, the runtime-assigned slot identifiers occupy exactly
the ranges `[0,P)` (pinned/untracked flags), `[P,P+T)` (tracked flags) and
`[P+T,P+T+A)` (aggregate untracked flags), in that allocation order, dense
and contiguous within each class. -/
theorem c1_slot_id_ordering {L : DataLayout} {hotCodeSize : Nat} {fp : Bool}
    {gfi : GcFuncInfoModel} {sm : Option StackMap} {c : Nat} {st : EmitState}
    (h : emitGCInfo true L hotCodeSize fp gfi sm c = .ok st) :
    ∃ T A,
      st.slotMap.length = gfi.pinnedSlots.length + T + A ∧
      allocIdFlags st.events =
        (List.range gfi.pinnedSlots.length).map (fun i => (i, pinnedFlags)) ++
        (List.range' gfi.pinnedSlots.length T).map (fun i => (i, trackedFlags)) ++
        (List.range' (gfi.pinnedSlots.length + T) A).map (fun i => (i, untrackedFlags)) := by
  obtain ⟨st1, st2, st3, h1, h2, h3, hst⟩ := emitGCInfo_phases h
  obtain ⟨hsm0, hcs0, evts0, hev0, haf0, hmem0, hsh0⟩ :=
    encodeHeader_spec hotCodeSize fp initState
  obtain ⟨hlen1, hcs1, hwfp1, evts1, hev1, haf1, hsh1⟩ := encodePinned_spec h1
  have hwfh : SlotMapWF (encodeHeader hotCodeSize fp initState) := by
    intro p hp
    rw [hsm0] at hp
    cases hp
  obtain ⟨hle2, hwf2, evts2, hev2, haf2, hsh2⟩ := encodeLiveness_spec (hwfp1 hwfh) h2
  obtain ⟨hle3, hcs3, hwfp3, evts3, hev3, haf3, hsh3⟩ := encodeGcAggregates_spec h3
  have hlen0 : (encodeHeader hotCodeSize fp initState).slotMap.length = 0 := by
    rw [hsm0]; rfl
  refine ⟨st2.slotMap.length - st1.slotMap.length,
    st3.slotMap.length - st2.slotMap.length, ?_, ?_⟩
  · have : st.slotMap = st3.slotMap := by rw [hst]; rfl
    rw [this]
    omega
  · have hev : st.events = st3.events ++
        [EncEvent.finalizeSlotIds, EncEvent.defineCallSites st3.callSites CallSiteSize,
         EncEvent.build, EncEvent.emitTable] := by
      rw [hst]
      simp [emitEncoding, finalizeEncoding]
    have htr : allocIdFlags
        [EncEvent.finalizeSlotIds, EncEvent.defineCallSites st3.callSites CallSiteSize,
         EncEvent.build, EncEvent.emitTable] = [] := by
      simp [allocIdFlags]
    have hev00 : (encodeHeader hotCodeSize fp initState).events = evts0 := by
      rw [hev0]; rfl
    rw [hev, allocIdFlags_append, htr, List.append_nil, hev3, allocIdFlags_append, haf3,
      hev2, allocIdFlags_append, haf2, hev1, allocIdFlags_append, haf1,
      hev00, haf0, List.nil_append, hlen0, List.range_eq_range']
    congr 1
    · congr 1
      exact range'_start_congr _ _ _ _ (by omega)
    · exact range'_start_congr _ _ _ _ (by omega)

/-- C10: when the raw stack-map data pointer is absent, the liveness scan
returns immediately leaving the state untouched (no tracked-slot allocation,
no slot-state event), while header encoding and table emission still occur
for the function. -/
theorem c10_null_stackmap :
    (∀ (c : Nat) (st : EmitState), encodeLiveness none c st = .ok st) ∧
    (∀ (L : DataLayout) (hcs : Nat) (fp : Bool) (gfi : GcFuncInfoModel)
       (c : Nat) (st : EmitState),
      emitGCInfo true L hcs fp gfi none c = .ok st →
      (∀ io s b, EncEvent.setSlotState io s b ∉ st.events) ∧
      (∀ id off flags, EncEvent.allocSlot id off flags ∈ st.events →
        flags = pinnedFlags ∨ flags = untrackedFlags) ∧
      EncEvent.setCodeLength hcs ∈ st.events ∧
      EncEvent.build ∈ st.events ∧ EncEvent.emitTable ∈ st.events) := by
  refine ⟨fun c st => rfl, ?_⟩
  intro L hcs fp gfi c st h
  obtain ⟨st1, st2, st3, h1, h2, h3, hst⟩ := emitGCInfo_phases h
  have hst2 : st2 = st1 := by
    have : encodeLiveness none c st1 = .ok st1 := rfl
    rw [this] at h2
    cases h2
    rfl
  subst hst2
  obtain ⟨hsm0, hcs0, evts0, hev0, haf0, hmem0, hsh0⟩ := encodeHeader_spec hcs fp initState
  obtain ⟨hlen1, hcs1, hwfp1, evts1, hev1, haf1, hsh1⟩ := encodePinned_spec h1
  obtain ⟨hle3, hcs3, hwfp3, evts3, hev3, haf3, hsh3⟩ := encodeGcAggregates_spec h3
  have hev00 : (encodeHeader hcs fp initState).events = evts0 := by
    rw [hev0]; rfl
  have hev : st.events = evts0 ++ evts1 ++ evts3 ++
      [EncEvent.finalizeSlotIds, EncEvent.defineCallSites st3.callSites CallSiteSize,
       EncEvent.build, EncEvent.emitTable] := by
    rw [hst]
    simp only [emitEncoding, finalizeEncoding]
    rw [hev3, hev1, hev00]
    simp [List.append_assoc]
  refine ⟨?_, ?_, ?_, ?_, ?_⟩
  · intro io s b hmm
    rw [hev] at hmm
    rcases List.mem_append.mp hmm with hmm | hmm
    · rcases List.mem_append.mp hmm with hmm | hmm
      · rcases List.mem_append.mp hmm with hmm | hmm
        · rcases hsh0 _ hmm with hh | hh | hh <;> cases hh
        · obtain ⟨id, off, hh⟩ := hsh1 _ hmm
          cases hh
      · obtain ⟨id, off, hh⟩ := hsh3 _ hmm
        cases hh
    · simp at hmm
  · intro id off flags hmm
    rw [hev] at hmm
    rcases List.mem_append.mp hmm with hmm | hmm
    · rcases List.mem_append.mp hmm with hmm | hmm
      · rcases List.mem_append.mp hmm with hmm | hmm
        · rcases hsh0 _ hmm with hh | hh | hh <;> cases hh
        · obtain ⟨id', off', hh⟩ := hsh1 _ hmm
          cases hh
          exact Or.inl rfl
      · obtain ⟨id', off', hh⟩ := hsh3 _ hmm
        cases hh
        exact Or.inr rfl
    · simp at hmm
  · rw [hev]
    exact List.mem_append.mpr (Or.inl (List.mem_append.mpr (Or.inl
      (List.mem_append.mpr (Or.inl hmem0)))))
  · rw [hev]
    refine List.mem_append.mpr (Or.inr ?_)
    simp
  · rw [hev]
    refine List.mem_append.mpr (Or.inr ?_)
    simp

/-- Witness for C1 on a function with one pinned slot, one tracked slot and
one aggregate-derived slot. -/
theorem c1_slot_id_ordering_witness :
    ∃ T A, (3 : Nat) = 1 + T + A ∧
      ([(0, pinnedFlags), (1, trackedFlags), (2, untrackedFlags)] : List (Nat × SlotFlags)) =
        (List.range 1).map (fun i => (i, pinnedFlags)) ++
        (List.range' 1 T).map (fun i => (i, trackedFlags)) ++
        (List.range' (1 + T) A).map (fun i => (i, untrackedFlags)) := by
  obtain ⟨T, A, h1, h2⟩ := c1_slot_id_ordering (show emitGCInfo true layout64 100 false
    ⟨[8], [⟨.struct [.int 64, .ptr 1], 32⟩]⟩
    (some ⟨1, [⟨10, [.direct 7 16]⟩, ⟨20, [.constant]⟩]⟩) 4 =
    .ok ⟨[(8, 0), (16, 1), (40, 2)], [12, 22],
      [EncEvent.setCodeLength 100, EncEvent.setScratchAreaSize 0,
       EncEvent.allocSlot 0 8 pinnedFlags, EncEvent.allocSlot 1 16 trackedFlags,
       EncEvent.setSlotState 12 1 true, EncEvent.setSlotState 22 1 false,
       EncEvent.allocSlot 2 40 untrackedFlags, EncEvent.finalizeSlotIds,
       EncEvent.defineCallSites [12, 22] 2, EncEvent.build, EncEvent.emitTable]⟩ from by decide)
  exact ⟨T, A, h1, h2⟩

/-- Witness for C2 on a safepoint that births slot 1. -/
theorem c2_liveness_diff_witness :
    ([EncEvent.allocSlot 1 16 trackedFlags,
      EncEvent.setSlotState 12 1 true] : List EncEvent).count
        (EncEvent.setSlotState (instructionOffsetOf 10 4) 1 true) = 1 := by
  obtain ⟨evts, hev, hlive, hdead, hio, hmem, hrec⟩ :=
    @c2_liveness_diff 1 4 ⟨[(8, 0)], [], []⟩ [] ⟨10, [.direct 7 16]⟩
      ⟨[(8, 0), (16, 1)], [12],
        [EncEvent.allocSlot 1 16 trackedFlags, EncEvent.setSlotState 12 1 true]⟩
      [1] (by decide) (by decide)
  have hevts : evts = [EncEvent.allocSlot 1 16 trackedFlags,
      EncEvent.setSlotState 12 1 true] := by simpa using hev.symm
  have hres := hlive 1
  rw [hevts, if_pos (by decide)] at hres
  exact hres

/-- Witness for C7 on a record reported at offset 10 with correction 4. -/
theorem c7_callsite_offset_witness :
    ([12] : List Nat) = [] ++ [instructionOffsetOf 10 4] ∧
    instructionOffsetOf 10 4 = 10 + 4 - CallSiteSize := by
  refine ⟨?_, c7_callsite_offset.2.1 10 4 (by decide) (by decide) (by decide) (by decide)⟩
  exact (c7_callsite_offset.1 1 4 ⟨[(8, 0)], [], []⟩ [] ⟨10, [.direct 7 16]⟩
    ⟨[(8, 0), (16, 1)], [12], [EncEvent.allocSlot 1 16 trackedFlags,
      EncEvent.setSlotState 12 1 true]⟩ [1] (by decide) (by decide)).1

/-- Witness for C8: a register location is fatal, a constant is skipped, and
a successfully encoded stream contains no register location. -/
theorem c8_register_fatal_witness :
    processLocation 0 (initState, []) .register = .error .gcPointerInRegister ∧
    processLocation 0 (initState, []) .constant = .ok (initState, []) ∧
    LocationKind.register ∉ [LocationKind.direct 7 16] := by
  refine ⟨c8_register_fatal.1 0 (initState, []),
    (c8_register_fatal.2.2.1 0 (initState, [])).1, ?_⟩
  exact c8_register_fatal.2.2.2 layout64 100 false ⟨[8], [⟨.struct [.int 64, .ptr 1], 32⟩]⟩
    ⟨1, [⟨10, [.direct 7 16]⟩, ⟨20, [.constant]⟩]⟩ 4
    ⟨[(8, 0), (16, 1), (40, 2)], [12, 22],
      [EncEvent.setCodeLength 100, EncEvent.setScratchAreaSize 0,
       EncEvent.allocSlot 0 8 pinnedFlags, EncEvent.allocSlot 1 16 trackedFlags,
       EncEvent.setSlotState 12 1 true, EncEvent.setSlotState 22 1 false,
       EncEvent.allocSlot 2 40 untrackedFlags, EncEvent.finalizeSlotIds,
       EncEvent.defineCallSites [12, 22] 2, EncEvent.build, EncEvent.emitTable]⟩
    (by decide) ⟨10, [.direct 7 16]⟩ (by decide)

/-- Witness for C9: the slot allocated by a liveness scan carries the
interior-pointer flag. -/
theorem c9_interior_flag_witness : trackedFlags.interior = true := by
  obtain ⟨evts, hev, hflags⟩ :=
    @c9_interior_flag (some ⟨1, [⟨10, [.direct 7 16]⟩]⟩) 4 ⟨[(8, 0)], [], []⟩
      ⟨[(8, 0), (16, 1)], [12], [EncEvent.allocSlot 1 16 trackedFlags,
        EncEvent.setSlotState 12 1 true]⟩
      (by decide) (by decide)
  have hevts : evts = [EncEvent.allocSlot 1 16 trackedFlags,
      EncEvent.setSlotState 12 1 true] := by simpa using hev.symm
  rw [hevts] at hflags
  exact (hflags 1 16 trackedFlags (by simp)).2

/-- Witness for C10 on a function encoded with no stack-map data. -/
theorem c10_null_stackmap_witness :
    encodeLiveness none 4 initState = .ok initState ∧
    EncEvent.setCodeLength 100 ∈
      ([EncEvent.setCodeLength 100, EncEvent.setScratchAreaSize 0,
        EncEvent.allocSlot 0 8 pinnedFlags, EncEvent.allocSlot 1 40 untrackedFlags,
        EncEvent.finalizeSlotIds, EncEvent.defineCallSites [] 2,
        EncEvent.build, EncEvent.emitTable] : List EncEvent) ∧
    EncEvent.build ∈
      ([EncEvent.setCodeLength 100, EncEvent.setScratchAreaSize 0,
        EncEvent.allocSlot 0 8 pinnedFlags, EncEvent.allocSlot 1 40 untrackedFlags,
        EncEvent.finalizeSlotIds, EncEvent.defineCallSites [] 2,
        EncEvent.build, EncEvent.emitTable] : List EncEvent) := by
  obtain ⟨h1, h2, h3, h4, h5⟩ := c10_null_stackmap.2 layout64 100 false
    ⟨[8], [⟨.struct [.int 64, .ptr 1], 32⟩]⟩ 4
    ⟨[(8, 0), (40, 1)], [],
      [EncEvent.setCodeLength 100, EncEvent.setScratchAreaSize 0,
       EncEvent.allocSlot 0 8 pinnedFlags, EncEvent.allocSlot 1 40 untrackedFlags,
       EncEvent.finalizeSlotIds, EncEvent.defineCallSites [] 2,
       EncEvent.build, EncEvent.emitTable]⟩ (by decide)
  exact ⟨c10_null_stackmap.1 4 initState, h3, h4⟩

end GcInfoEmitter

/-- C5: for every stack object with an associated allocation, the frame
walker resolves its callee-relative offset as the caller-incoming offset plus
the current frame size plus the pointer width (for any frame size and any
pointer width, absent `int32_t` overflow). -/
theorem c5_frame_offset_translation (stackSize pointerSize : Nat) (objectOffset : Int)
    (hlo : -2 ^ 31 ≤ objectOffset + stackSize + pointerSize)
    (hhi : objectOffset + stackSize + pointerSize < 2 ^ 31) :
    GcInfoRecorder.slotOffsetOf stackSize pointerSize objectOffset =
      objectOffset + stackSize + pointerSize := by
  unfold GcInfoRecorder.slotOffsetOf GcInfoRecorder.toInt32 GcInfoRecorder.wrap64
  simp only [show (2 : Int) ^ 31 = 2147483648 from by norm_num,
    show (2 : Int) ^ 32 = 4294967296 from by norm_num,
    show (2 : Int) ^ 64 = 18446744073709551616 from by norm_num] at *
  omega

namespace GcInfo

theorem mem_gcPointersLoop {L : DataLayout} {fields : List Ty} :
    ∀ {strides : List Nat} {off : Nat},
    off ∈ gcPointersLoop L fields strides ↔
      off ∈ strides ∧
        isGcPointer (terminalField L (tyListSize fields + 1) fields off) = true := by
  intro strides
  induction strides with
  | nil => intro off; simp [gcPointersLoop]
  | cons s rest ih =>
      intro off
      rw [gcPointersLoop]
      constructor
      · intro h
        rcases List.mem_append.mp h with h | h
        · split at h
          · simp only [List.mem_singleton] at h
            subst h
            exact ⟨List.mem_cons_self _ _, by assumption⟩
          · cases h
        · obtain ⟨h1, h2⟩ := ih.mp h
          exact ⟨List.mem_cons_of_mem _ h1, h2⟩
      · rintro ⟨hmem, hpred⟩
        rcases List.mem_cons.mp hmem with rfl | hmem
        · refine List.mem_append.mpr (Or.inl ?_)
          rw [if_pos hpred]
          simp
        · exact List.mem_append.mpr (Or.inr (ih.mpr ⟨hmem, hpred⟩))

theorem mem_strideOffsets {W : Nat} (hW : 0 < W) {ts off : Nat} :
    off ∈ strideOffsets ts W ↔ off < ts ∧ W ∣ off := by
  unfold strideOffsets
  rw [List.mem_map]
  constructor
  · rintro ⟨k, hk, rfl⟩
    rw [List.mem_range] at hk
    have h1 : k + 1 ≤ (ts + W - 1) / W := hk
    rw [Nat.le_div_iff_mul_le hW, Nat.add_mul, Nat.one_mul] at h1
    refine ⟨?_, ⟨k, Nat.mul_comm k W⟩⟩
    set m := k * W with hm
    omega
  · rintro ⟨hlt, k, hdvd⟩
    refine ⟨k, ?_, by rw [hdvd, Nat.mul_comm]⟩
    rw [List.mem_range, Nat.lt_iff_add_one_le, Nat.le_div_iff_mul_le hW,
      Nat.add_mul, Nat.one_mul]
    have hlt' : k * W < ts := by rw [Nat.mul_comm, ← hdvd]; exact hlt
    set m := k * W with hm
    omega

end GcInfo

/-- C6: for every sized aggregate type and data layout, the GC pointer layout
resolver records exactly the pointer-size stride offsets within the type's
store size whose terminal (non-struct) field, reached by descending through
nested struct fields, is reference-typed; in particular, for a struct
containing a nested struct containing a reference at depth 2 it reports one
offset equal to the outer field offset plus the inner field offset, and for a
struct with no reference-typed field (recursively) it reports no offsets. -/
theorem c6_layout_resolver :
    (∀ (L : DataLayout) (fields : List Ty) (off : Nat),
      off ∈ GcInfo.getGcPointers L fields ↔
        (off < storeSize L (.struct fields) ∧ L.pointerSize ∣ off ∧
         GcInfo.isGcPointer
           (GcInfo.terminalField L (tyListSize fields + 1) fields off) = true)) ∧
    GcInfo.getGcPointers layout64 [.int 64, .struct [.int 64, .ptr 1]] =
      [(structOffsets layout64 [.int 64, .struct [.int 64, .ptr 1]]).getD 1 0 +
       (structOffsets layout64 [.int 64, .ptr 1]).getD 1 0] ∧
    GcInfo.getGcPointers layout64 [.int 64, .struct [.int 64, .int 64]] = [] := by
  refine ⟨?_, by decide, by decide⟩
  intro L fields off
  rw [GcInfo.getGcPointers, GcInfo.mem_gcPointersLoop,
    GcInfo.mem_strideOffsets L.pointerSizePos]
  tauto

namespace Abi

theorem getD_set_ne {l : List Val} {i j : Nat} (hij : i ≠ j) (a d : Val) :
    (l.set i a).getD j d = l.getD j d := by
  rw [List.getD_eq_getElem?_getD, List.getD_eq_getElem?_getD, List.getElem?_set_ne hij]

theorem set_append_right (l₁ l₂ : List Val) (a : Val) (k : Nat) :
    (l₁ ++ l₂).set (l₁.length + k) a = l₁ ++ l₂.set k a := by
  rw [List.set_append, if_neg (by omega), Nat.add_sub_cancel_left]

theorem setCallArgs_spec (args : List Val) :
    ∀ (pre suf : List Val),
    setCallArgs (pre ++ List.replicate args.length Val.undef ++ suf) pre.length args =
      pre ++ args ++ suf := by
  induction args with
  | nil => intro pre suf; simp [setCallArgs]
  | cons a rest ih =>
      intro pre suf
      rw [List.length_cons, List.replicate_succ, setCallArgs]
      have hset : (pre ++ (Val.undef :: List.replicate rest.length Val.undef) ++ suf).set
          pre.length a =
          (pre ++ [a]) ++ List.replicate rest.length Val.undef ++ suf := by
        rw [show pre.length = pre.length + 0 from rfl, List.append_assoc,
          set_append_right]
        simp
      rw [hset, show pre.length + 1 = (pre ++ [a]).length by simp, ih]
      simp

theorem buildIntrinsicArgs_eq (target : Val) (args : List Val) (rA gA tA pA : Val) :
    buildIntrinsicArgs target args rA gA tA pA =
      [Val.constNat 0, Val.constNat 0, target, Val.constNat args.length,
       Val.constNat GCTransitionFlag] ++ args ++
      [Val.constNat TransitionArgCount, rA, gA, tA, pA, Val.constNat 0] := by
  simp only [buildIntrinsicArgs, PrefixArgCount, PostfixArgCount, TransitionArgCount]
  have hsplit : List.replicate (5 + args.length + (4 + 2)) Val.undef =
      List.replicate 5 Val.undef ++ List.replicate args.length Val.undef ++
        List.replicate 6 Val.undef := by
    rw [← List.replicate_add, ← List.replicate_add]
  rw [hsplit]
  have h5 : List.replicate 5 Val.undef =
      [Val.undef, Val.undef, Val.undef, Val.undef, Val.undef] := rfl
  have h6 : List.replicate 6 Val.undef =
      [Val.undef, Val.undef, Val.undef, Val.undef, Val.undef, Val.undef] := rfl
  rw [h5, h6]
  have hpre : (([Val.undef, Val.undef, Val.undef, Val.undef, Val.undef] ++
      List.replicate args.length Val.undef ++
      [Val.undef, Val.undef, Val.undef, Val.undef, Val.undef, Val.undef]).set 0
        (Val.constNat 0) |>.set 1 (Val.constNat 0) |>.set 2 target |>.set 3
        (Val.constNat args.length) |>.set 4 (Val.constNat GCTransitionFlag)) =
      [Val.constNat 0, Val.constNat 0, target, Val.constNat args.length,
       Val.constNat GCTransitionFlag] ++ List.replicate args.length Val.undef ++
      [Val.undef, Val.undef, Val.undef, Val.undef, Val.undef, Val.undef] := by
    simp [List.set]
  rw [hpre]
  have hmain := setCallArgs_spec args
    [Val.constNat 0, Val.constNat 0, target, Val.constNat args.length,
     Val.constNat GCTransitionFlag]
    [Val.undef, Val.undef, Val.undef, Val.undef, Val.undef, Val.undef]
  simp only [List.length_cons, List.length_nil, Nat.reduceAdd] at hmain
  rw [hmain]
  have hlen : ([Val.constNat 0, Val.constNat 0, target, Val.constNat args.length,
      Val.constNat GCTransitionFlag] ++ args).length = 5 + args.length := by
    simp
    omega
  have hj : ∀ k : Nat, 5 + args.length + k =
      ([Val.constNat 0, Val.constNat 0, target, Val.constNat args.length,
        Val.constNat GCTransitionFlag] ++ args).length + k := by
    intro k
    rw [hlen]
  rw [List.append_assoc, ← List.append_assoc _ args,
    show 5 + args.length = ([Val.constNat 0, Val.constNat 0, target,
      Val.constNat args.length, Val.constNat GCTransitionFlag] ++ args).length + 0 by
        rw [hlen]
        omega,
    set_append_right]
  rw [show ([Val.constNat 0, Val.constNat 0, target, Val.constNat args.length,
      Val.constNat GCTransitionFlag] ++ args).length + 0 + 1 =
      ([Val.constNat 0, Val.constNat 0, target, Val.constNat args.length,
        Val.constNat GCTransitionFlag] ++ args).length + 1 by omega, set_append_right]
  rw [show ([Val.constNat 0, Val.constNat 0, target, Val.constNat args.length,
      Val.constNat GCTransitionFlag] ++ args).length + 1 + 1 =
      ([Val.constNat 0, Val.constNat 0, target, Val.constNat args.length,
        Val.constNat GCTransitionFlag] ++ args).length + 2 by omega, set_append_right]
  rw [show ([Val.constNat 0, Val.constNat 0, target, Val.constNat args.length,
      Val.constNat GCTransitionFlag] ++ args).length + 2 + 1 =
      ([Val.constNat 0, Val.constNat 0, target, Val.constNat args.length,
        Val.constNat GCTransitionFlag] ++ args).length + 3 by omega, set_append_right]
  rw [show ([Val.constNat 0, Val.constNat 0, target, Val.constNat args.length,
      Val.constNat GCTransitionFlag] ++ args).length + 3 + 1 =
      ([Val.constNat 0, Val.constNat 0, target, Val.constNat args.length,
        Val.constNat GCTransitionFlag] ++ args).length + 4 by omega, set_append_right]
  rw [show ([Val.constNat 0, Val.constNat 0, target, Val.constNat args.length,
      Val.constNat GCTransitionFlag] ++ args).length + 4 + 1 =
      ([Val.constNat 0, Val.constNat 0, target, Val.constNat args.length,
        Val.constNat GCTransitionFlag] ++ args).length + 5 by omega, set_append_right]
  simp [List.set]

theorem placeArgs_spec (isJmp : Bool) (ri : Int) :
    ∀ (l : List (ABIArgKind × Val)) (arguments : List Val) (tr : List Instr) (i : Nat),
    (placeArgs isJmp ri l arguments tr i).1.length = arguments.length ∧
    (∃ extra, (placeArgs isJmp ri l arguments tr i).2 = tr ++ extra ∧
      ∀ e ∈ extra, ∃ v j, e = Instr.store v (Val.temp j)) ∧
    ((placeArgs isJmp ri l arguments tr i).1.getD ri.toNat Val.undef =
      arguments.getD ri.toNat Val.undef ∨ ri < 0) := by
  intro l
  induction l with
  | nil =>
      intro arguments tr i
      exact ⟨rfl, ⟨[], by simp [placeArgs], by simp⟩, Or.inl rfl⟩
  | cons p rest ih =>
      intro arguments tr i
      obtain ⟨kind, arg⟩ := p
      have hne : ∀ i : Nat, ri < 0 ∨
          (if ri ≥ 0 && i == ri.toNat then i + 1 else i) ≠ ri.toNat := by
        intro i
        rcases Int.lt_or_le ri 0 with hri | hri
        · exact Or.inl hri
        · refine Or.inr ?_
          by_cases hi : i = ri.toNat
          · rw [if_pos (by simp [hi, hri])]
            omega
          · rw [if_neg (by simp [hi])]
            exact hi
      cases kind with
      | indirect =>
          rw [placeArgs]
          by_cases hj : isJmp
          · subst hj
            simp only [if_true]
            obtain ⟨hlen, ⟨extra, htr, hsh⟩, hget⟩ :=
              ih (arguments.set (if ri ≥ 0 && i == ri.toNat then i + 1 else i) arg) tr
                ((if ri ≥ 0 && i == ri.toNat then i + 1 else i) + 1)
            refine ⟨by rw [hlen, List.length_set], ⟨extra, htr, hsh⟩, ?_⟩
            rcases hget with hget | hri
            · rcases hne i with hri | hne'
              · exact Or.inr hri
              · rw [hget, getD_set_ne hne']
                exact Or.inl rfl
            · exact Or.inr hri
          · simp only [if_neg hj]
            obtain ⟨hlen, ⟨extra, htr, hsh⟩, hget⟩ :=
              ih (arguments.set (if ri ≥ 0 && i == ri.toNat then i + 1 else i)
                  (Val.temp (if ri ≥ 0 && i == ri.toNat then i + 1 else i)))
                (tr ++ [Instr.store arg
                  (Val.temp (if ri ≥ 0 && i == ri.toNat then i + 1 else i))])
                ((if ri ≥ 0 && i == ri.toNat then i + 1 else i) + 1)
            refine ⟨by rw [hlen, List.length_set],
              ⟨Instr.store arg (Val.temp (if ri ≥ 0 && i == ri.toNat then i + 1 else i))
                :: extra, by rw [htr, List.append_assoc]; rfl, ?_⟩, ?_⟩
            · intro e he
              rcases List.mem_cons.mp he with he | he
              · exact ⟨arg, _, he⟩
              · exact hsh e he
            · rcases hget with hget | hri
              · rcases hne i with hri | hne'
                · exact Or.inr hri
                · rw [hget, getD_set_ne hne']
                  exact Or.inl rfl
              · exact Or.inr hri
      | direct =>
          simp only [placeArgs]
          obtain ⟨hlen, ⟨extra, htr, hsh⟩, hget⟩ :=
            ih (arguments.set (if ri ≥ 0 && i == ri.toNat then i + 1 else i)
                (Val.coerced arg)) tr
              ((if ri ≥ 0 && i == ri.toNat then i + 1 else i) + 1)
          refine ⟨by rw [hlen, List.length_set], ⟨extra, htr, hsh⟩, ?_⟩
          rcases hget with hget | hri
          · rcases hne i with hri | hne'
            · exact Or.inr hri
            · rw [hget, getD_set_ne hne']
              exact Or.inl rfl
          · exact Or.inr hri
      | zeroExtend =>
          simp only [placeArgs]
          obtain ⟨hlen, ⟨extra, htr, hsh⟩, hget⟩ :=
            ih (arguments.set (if ri ≥ 0 && i == ri.toNat then i + 1 else i)
                (Val.coerced arg)) tr
              ((if ri ≥ 0 && i == ri.toNat then i + 1 else i) + 1)
          refine ⟨by rw [hlen, List.length_set], ⟨extra, htr, hsh⟩, ?_⟩
          rcases hget with hget | hri
          · rcases hne i with hri | hne'
            · exact Or.inr hri
            · rw [hget, getD_set_ne hne']
              exact Or.inl rfl
          · exact Or.inr hri
      | signExtend =>
          simp only [placeArgs]
          obtain ⟨hlen, ⟨extra, htr, hsh⟩, hget⟩ :=
            ih (arguments.set (if ri ≥ 0 && i == ri.toNat then i + 1 else i)
                (Val.coerced arg)) tr
              ((if ri ≥ 0 && i == ri.toNat then i + 1 else i) + 1)
          refine ⟨by rw [hlen, List.length_set], ⟨extra, htr, hsh⟩, ?_⟩
          rcases hget with hget | hri
          · rcases hne i with hri | hne'
            · exact Or.inr hri
            · rw [hget, getD_set_ne hne']
              exact Or.inl rfl
          · exact Or.inr hri

theorem getD_set_ne_param {l : List ParamTy} {i j : Nat} (hij : i ≠ j) (a d : ParamTy) :
    (l.set i a).getD j d = l.getD j d := by
  rw [List.getD_eq_getElem?_getD, List.getD_eq_getElem?_getD, List.getElem?_set_ne hij]

theorem placeParamTypes_spec (ri : Int) :
    ∀ (l : List (ABIArgKind × Nat)) (paramTypes : List ParamTy) (i : Nat),
    (placeParamTypes ri l paramTypes i).length = paramTypes.length ∧
    ((placeParamTypes ri l paramTypes i).getD ri.toNat ParamTy.unset =
      paramTypes.getD ri.toNat ParamTy.unset ∨ ri < 0) := by
  intro l
  induction l with
  | nil => intro paramTypes i; exact ⟨rfl, Or.inl rfl⟩
  | cons p rest ih =>
      intro paramTypes i
      obtain ⟨kind, j⟩ := p
      have hne : ∀ i : Nat, ri < 0 ∨
          (if ri ≥ 0 && i == ri.toNat then i + 1 else i) ≠ ri.toNat := by
        intro i
        rcases Int.lt_or_le ri 0 with hri | hri
        · exact Or.inl hri
        · refine Or.inr ?_
          by_cases hi : i = ri.toNat
          · rw [if_pos (by simp [hi, hri])]
            omega
          · rw [if_neg (by simp [hi])]
            exact hi
      have hstep : ∀ (v : ParamTy),
          (placeParamTypes ri rest (paramTypes.set
            (if ri ≥ 0 && i == ri.toNat then i + 1 else i) v)
            ((if ri ≥ 0 && i == ri.toNat then i + 1 else i) + 1)).length =
            paramTypes.length ∧
          ((placeParamTypes ri rest (paramTypes.set
            (if ri ≥ 0 && i == ri.toNat then i + 1 else i) v)
            ((if ri ≥ 0 && i == ri.toNat then i + 1 else i) + 1)).getD ri.toNat
              ParamTy.unset = paramTypes.getD ri.toNat ParamTy.unset ∨ ri < 0) := by
        intro v
        obtain ⟨hlen, hget⟩ := ih (paramTypes.set
          (if ri ≥ 0 && i == ri.toNat then i + 1 else i) v)
          ((if ri ≥ 0 && i == ri.toNat then i + 1 else i) + 1)
        refine ⟨by rw [hlen, List.length_set], ?_⟩
        rcases hget with hget | hri
        · rcases hne i with hri | hne'
          · exact Or.inr hri
          · rw [hget, getD_set_ne_param hne']
            exact Or.inl rfl
        · exact Or.inr hri
      cases kind with
      | indirect => rw [placeParamTypes]; exact hstep _
      | direct => simp only [placeParamTypes]; exact hstep _
      | zeroExtend => simp only [placeParamTypes]; exact hstep _
      | signExtend => simp only [placeParamTypes]; exact hstep _

theorem isFrameChainStore_store (ee : EEInfo) (v a : Val) :
    isFrameChainStore ee (Instr.store v a) = (a == threadFrameAddr ee) := rfl

theorem isGCModeStore_store (ee : EEInfo) (v a : Val) :
    isGCModeStore ee (Instr.store v a) = (a == gcStateAddr ee) := rfl

theorem callFrame_addr_ne_threadFrame (ee : EEInfo) (x : Nat) :
    (Val.fieldAddr Val.callFrame x == threadFrameAddr ee) = false := by
  rw [beq_eq_false_iff_ne, threadFrameAddr]
  intro hx
  injection hx with h1 h2
  cases h1

theorem callFrame_addr_ne_gcState (ee : EEInfo) (x : Nat) :
    (Val.fieldAddr Val.callFrame x == gcStateAddr ee) = false := by
  rw [beq_eq_false_iff_ne, gcStateAddr]
  intro hx
  injection hx with h1 h2
  cases h1

theorem temp_addr_ne_threadFrame (ee : EEInfo) (j : Nat) :
    (Val.temp j == threadFrameAddr ee) = false := by
  rw [beq_eq_false_iff_ne, threadFrameAddr]
  intro hx
  cases hx

theorem emitCall_ok_guard {ee : EEInfo} {target : Val} {inp : CallInput}
    {out : CallOutput} (h : emitCall ee target inp = .ok out) :
    ((if inp.indirectionCell.isSome = true then 1 else 0) +
     (if inp.callConv ≠ CorInfoCallConv.default then 1 else 0) +
     (if (inp.isJmp && inp.callerHasSecretParameter) = true then 1 else 0) : Nat) ≤ 1 := by
  by_contra hg
  unfold emitCall at h
  rw [if_pos hg] at h
  cases h

theorem placeArgs_countP (ee : EEInfo) (isJmp : Bool) (ri : Int)
    (l : List (ABIArgKind × Val)) (a : List Val) (tr : List Instr) (i : Nat)
    (htr : tr.countP (isFrameChainStore ee) = 0) :
    (placeArgs isJmp ri l a tr i).2.countP (isFrameChainStore ee) = 0 := by
  obtain ⟨-, ⟨extra, htr2, hsh⟩, -⟩ := placeArgs_spec isJmp ri l a tr i
  rw [htr2, List.countP_append, htr, Nat.zero_add, List.countP_eq_zero]
  intro e he
  obtain ⟨v, j, rfl⟩ := hsh e he
  rw [isFrameChainStore_store, temp_addr_ne_threadFrame]
  simp

theorem resultTrace_countP (ee : EEInfo) (nodeOpt : Option Val) (isStruct : Bool) :
    (match nodeOpt with
     | some node => if isStruct then [] else [Instr.load node]
     | none => ([] : List Instr)).countP (isFrameChainStore ee) = 0 := by
  cases nodeOpt with
  | none => rfl
  | some node =>
      cases isStruct with
      | false => simp [isFrameChainStore]
      | true => rfl

theorem unmanagedCall_trace_decomp (ee : EEInfo) (hasSecret funcVoid : Bool)
    (target : Val) (setup post : List Instr) (args2 : List Val)
    (hsetup : setup.countP (isFrameChainStore ee) = 0) :
    ∃ pre mid,
      setup ++ (emitUnmanagedCall ee hasSecret funcVoid target args2 ++ post) =
        pre ++ Instr.store (frameVPtrVal ee) (threadFrameAddr ee) ::
          Instr.call Val.gcStatepointFn
            ([Val.constNat 0, Val.constNat 0, target, Val.constNat args2.length,
              Val.constNat GCTransitionFlag] ++ args2 ++
             [Val.constNat TransitionArgCount, retAddrAddr ee, gcStateAddr ee,
              Val.threadTrapAddr, Val.pauseHelper, Val.constNat 0]) ::
          (mid ++ Instr.store (Val.loadOf (frameLinkAddr ee)) (threadFrameAddr ee) :: post) ∧
      pre.countP (isFrameChainStore ee) = 0 ∧
      mid.countP (isFrameChainStore ee) = 0 ∧
      mid.countP (isGCModeStore ee) = 0 ∧
      Instr.store Val.nullPtr (retAddrAddr ee) ∈ mid := by
  refine ⟨setup ++ (if hasSecret then
      [Instr.store Val.secretParam (Val.fieldAddr Val.callFrame ee.offsetOfCallTarget)]
    else []) ++ [Instr.load Val.thread],
    (if funcVoid then [] else [Instr.call Val.gcResultFn [Val.callResult]]) ++
      [Instr.store Val.nullPtr (retAddrAddr ee), Instr.load (frameLinkAddr ee)],
    ?_, ?_, ?_, ?_, ?_⟩
  · simp only [emitUnmanagedCall, buildIntrinsicArgs_eq, threadFrameAddr, gcStateAddr,
      retAddrAddr, frameVPtrVal, frameLinkAddr]
    cases hasSecret <;> cases funcVoid <;> simp [List.append_assoc]
  · rw [List.countP_append, List.countP_append, hsetup]
    cases hasSecret <;>
      simp [List.countP_cons, isFrameChainStore, isFrameChainStore_store,
        callFrame_addr_ne_threadFrame]
  · cases funcVoid <;>
      simp [List.countP_cons, List.countP_append, isFrameChainStore,
        isFrameChainStore_store, callFrame_addr_ne_threadFrame, retAddrAddr]
  · cases funcVoid <;>
      simp [List.countP_cons, List.countP_append, isGCModeStore,
        isGCModeStore_store, callFrame_addr_ne_gcState, retAddrAddr]
  · cases funcVoid <;> simp

/-- C3: a call lowered with a calling convention other than the runtime's
default emits, in order: exactly one store linking the interop frame onto the
thread's frame chain; the call as a GC-transition statepoint carrying exactly
`TransitionArgCount = 4` transition arguments (the return-address-field
address, the GC-mode-field address, the thread-trap address and the GC-pause
helper address) and a deopt-argument count of 0; then a store clearing the
frame's return-address field and exactly one store unlinking the frame —
with no other frame-chain or GC-mode store between the link and the
unlink. -/
theorem c3_transition_protocol {ee : EEInfo} {target : Val} {inp : CallInput}
    {out : CallOutput}
    (hconv : inp.callConv ≠ CorInfoCallConv.default)
    (h : emitCall ee target inp = .ok out) :
    ∃ pre mid post args2,
      out.trace = pre ++ Instr.store (frameVPtrVal ee) (threadFrameAddr ee) ::
        Instr.call Val.gcStatepointFn
          ([Val.constNat 0, Val.constNat 0, target, Val.constNat args2.length,
            Val.constNat GCTransitionFlag] ++ args2 ++
           [Val.constNat TransitionArgCount, retAddrAddr ee, gcStateAddr ee,
            Val.threadTrapAddr, Val.pauseHelper, Val.constNat 0]) ::
        (mid ++ Instr.store (Val.loadOf (frameLinkAddr ee)) (threadFrameAddr ee) :: post) ∧
      pre.countP (isFrameChainStore ee) = 0 ∧
      mid.countP (isFrameChainStore ee) = 0 ∧
      mid.countP (isGCModeStore ee) = 0 ∧
      post.countP (isFrameChainStore ee) = 0 ∧
      Instr.store Val.nullPtr (retAddrAddr ee) ∈ mid ∧
      TransitionArgCount = 4 := by
  have hguard := emitCall_ok_guard h
  rw [if_pos hconv] at hguard
  have hcell : inp.indirectionCell = none := by
    cases hc : inp.indirectionCell with
    | none => rfl
    | some cell => rw [hc] at hguard; simp at hguard; omega
  have hjmpsec : (inp.isJmp && inp.callerHasSecretParameter) = false := by
    by_cases hj : (inp.isJmp && inp.callerHasSecretParameter) = true
    · rw [if_pos hj, hcell] at hguard
      simp at hguard
    · simpa using hj
  simp only [emitCall, hcell, hjmpsec, bind, Except.bind, if_pos hconv,
    Option.isSome_none, Bool.false_eq_true, if_false, pure, Except.pure] at h
  norm_num at h
  subst h
  dsimp only
  obtain ⟨pre, mid, heq, h1, h2, h3, h4⟩ :=
    unmanagedCall_trace_decomp ee inp.callerHasSecretParameter _ target _ _ _
      (placeArgs_countP ee _ _ _ _ [] _ rfl)
  exact ⟨pre, mid, _, _, heq, h1, h2, h3, resultTrace_countP ee _ _, h4, rfl⟩

/-- Witness for C3 on a stdcall call with one direct argument. -/
theorem c3_transition_protocol_witness :
    ∃ pre mid post args2,
      ([Instr.load Val.thread,
        Instr.store (Val.fieldAddr Val.callFrame 8)
          (Val.fieldAddr (Val.loadOf Val.thread) 32),
        Instr.call Val.gcStatepointFn
          [Val.constNat 0, Val.constNat 0, Val.arg 99, Val.constNat 1, Val.constNat 1,
           Val.coerced (Val.arg 0), Val.constNat 4, Val.fieldAddr Val.callFrame 24,
           Val.fieldAddr (Val.loadOf Val.thread) 40, Val.threadTrapAddr,
           Val.pauseHelper, Val.constNat 0],
        Instr.store Val.nullPtr (Val.fieldAddr Val.callFrame 24),
        Instr.load (Val.fieldAddr Val.callFrame 16),
        Instr.store (Val.loadOf (Val.fieldAddr Val.callFrame 16))
          (Val.fieldAddr (Val.loadOf Val.thread) 32)] : List Instr) =
        pre ++ Instr.store (frameVPtrVal ⟨0, 8, 16, 24, 32, 40⟩)
            (threadFrameAddr ⟨0, 8, 16, 24, 32, 40⟩) ::
          Instr.call Val.gcStatepointFn
            ([Val.constNat 0, Val.constNat 0, Val.arg 99, Val.constNat args2.length,
              Val.constNat GCTransitionFlag] ++ args2 ++
             [Val.constNat TransitionArgCount, retAddrAddr ⟨0, 8, 16, 24, 32, 40⟩,
              gcStateAddr ⟨0, 8, 16, 24, 32, 40⟩, Val.threadTrapAddr,
              Val.pauseHelper, Val.constNat 0]) ::
          (mid ++ Instr.store (Val.loadOf (frameLinkAddr ⟨0, 8, 16, 24, 32, 40⟩))
            (threadFrameAddr ⟨0, 8, 16, 24, 32, 40⟩) :: post) ∧
      pre.countP (isFrameChainStore ⟨0, 8, 16, 24, 32, 40⟩) = 0 ∧
      mid.countP (isFrameChainStore ⟨0, 8, 16, 24, 32, 40⟩) = 0 ∧
      mid.countP (isGCModeStore ⟨0, 8, 16, 24, 32, 40⟩) = 0 ∧
      post.countP (isFrameChainStore ⟨0, 8, 16, 24, 32, 40⟩) = 0 ∧
      Instr.store Val.nullPtr (retAddrAddr ⟨0, 8, 16, 24, 32, 40⟩) ∈ mid ∧
      TransitionArgCount = 4 :=
  @c3_transition_protocol ⟨0, 8, 16, 24, 32, 40⟩ (Val.arg 99)
    ⟨CorInfoCallConv.stdcall, false, ABIArgKind.direct, [ABIArgKind.direct],
      [Val.arg 0], none, false, false, true, false⟩
    _
    (by decide)
    (show emitCall ⟨0, 8, 16, 24, 32, 40⟩ (Val.arg 99) _ = .ok
      ⟨[Instr.load Val.thread,
        Instr.store (Val.fieldAddr Val.callFrame 8)
          (Val.fieldAddr (Val.loadOf Val.thread) 32),
        Instr.call Val.gcStatepointFn
          [Val.constNat 0, Val.constNat 0, Val.arg 99, Val.constNat 1, Val.constNat 1,
           Val.coerced (Val.arg 0), Val.constNat 4, Val.fieldAddr Val.callFrame 24,
           Val.fieldAddr (Val.loadOf Val.thread) 40, Val.threadTrapAddr,
           Val.pauseHelper, Val.constNat 0],
        Instr.store Val.nullPtr (Val.fieldAddr Val.callFrame 24),
        Instr.load (Val.fieldAddr Val.callFrame 16),
        Instr.store (Val.loadOf (Val.fieldAddr Val.callFrame 16))
          (Val.fieldAddr (Val.loadOf Val.thread) 32)],
       [Val.coerced (Val.arg 0)], -1, CC.c⟩ from by decide)

theorem getD_set_self {l : List Val} {i : Nat} (h : i < l.length) (a d : Val) :
    (l.set i a).getD i d = a := by
  rw [List.getD_eq_getElem?_getD, List.getElem?_set_self h]
  rfl

theorem getD_set_self_param {l : List ParamTy} {i : Nat} (h : i < l.length) (a d : ParamTy) :
    (l.set i a).getD i d = a := by
  rw [List.getD_eq_getElem?_getD, List.getElem?_set_self h]
  rfl


theorem placeArgs_getD_set (isJmp : Bool) (l : List (ABIArgKind × Val)) (base : List Val)
    (r i : Nat) (node : Val) (hlt : r < base.length) :
    (placeArgs isJmp (↑r) l (base.set r node) [] i).1.getD r Val.undef = node := by
  obtain ⟨-, -, hpres⟩ := placeArgs_spec isJmp (↑r) l (base.set r node) [] i
  rcases hpres with hp | hneg
  · rw [Int.toNat_natCast] at hp
    rw [hp, getD_set_self hlt]
  · exact absurd hneg (Int.not_lt.mpr (Int.natCast_nonneg _))

theorem base_len_bound (inp : CallInput) (hthis : inp.hasThis = true → 1 ≤ inp.args.length)
    (base : List Val) (hlen : base.length = inp.args.length + (1 + numSpecialArgsOf inp)) :
    numSpecialArgsOf inp + (if inp.hasThis = true then 1 else 0) < base.length := by
  have h1 : (if inp.hasThis = true then 1 else 0) ≤ inp.args.length := by
    by_cases ht : inp.hasThis = true
    · rw [if_pos ht]; exact hthis ht
    · rw [if_neg ht]
      omega
  omega

theorem emitCall_indirect_spec {ee : EEInfo} {target : Val} {inp : CallInput}
    {out : CallOutput}
    (hind : inp.resultKind = ABIArgKind.indirect)
    (hthis : inp.hasThis = true → 1 ≤ inp.args.length)
    (h : emitCall ee target inp = .ok out) :
    out.resultIndex =
      ((numSpecialArgsOf inp + (if inp.hasThis then 1 else 0) : Nat) : Int) ∧
    out.arguments.getD (numSpecialArgsOf inp + (if inp.hasThis then 1 else 0))
        Val.undef =
      (if inp.isJmp then Val.indirectResultParam
       else Val.temp (numSpecialArgsOf inp + (if inp.hasThis then 1 else 0))) := by
  have hguard := emitCall_ok_guard h
  unfold emitCall at h
  rw [if_neg (not_not_intro hguard)] at h
  simp only [hind, beq_self_eq_true, if_true, bind, Except.bind, pure, Except.pure] at h
  split at h
  · split at h
    · injection h with h
      subst h
      dsimp only
      refine ⟨rfl, ?_⟩
      simp only [Int.toNat_natCast]
      refine placeArgs_getD_set _ _ _ _ _ _ ?_
      refine base_len_bound inp hthis _ ?_
      cases inp.indirectionCell <;> dsimp only <;>
        first
        | (split <;> simp)
        | simp
    · cases h
  · split at h
    · split at h
      · injection h with h
        subst h
        dsimp only
        refine ⟨rfl, ?_⟩
        simp only [Int.toNat_natCast]
        refine placeArgs_getD_set _ _ _ _ _ _ ?_
        refine base_len_bound inp hthis _ ?_
        cases inp.indirectionCell <;> dsimp only <;> simp
      · cases h
    · injection h with h
      subst h
      dsimp only
      refine ⟨rfl, ?_⟩
      simp only [Int.toNat_natCast]
      refine placeArgs_getD_set _ _ _ _ _ _ ?_
      refine base_len_bound inp hthis _ ?_
      cases inp.indirectionCell <;> dsimp only <;> simp


theorem createFunction_indirect_spec (hasThis : Bool) (argKinds : List ABIArgKind)
    (hasSecret : Bool) (hthis : hasThis = true → 1 ≤ argKinds.length) :
    (createFunction hasThis ABIArgKind.indirect argKinds hasSecret).resultIndex =
      (if hasThis then 1 else 0) ∧
    (createFunction hasThis ABIArgKind.indirect argKinds hasSecret).paramTypes.getD
      (if hasThis then 1 else 0) ParamTy.unset = ParamTy.indirectResultPtr := by
  simp only [createFunction, beq_self_eq_true, if_true]
  by_cases ht : hasThis = true
  · simp only [if_pos ht]
    refine ⟨trivial, ?_⟩
    obtain ⟨-, hpres⟩ := placeParamTypes_spec 1
      (argKinds.zip (List.range argKinds.length))
      ((List.replicate (argKinds.length + 1) ParamTy.unset).set (Int.toNat 1)
        ParamTy.indirectResultPtr) 0
    rcases hpres with hp | hneg
    · rw [show Int.toNat 1 = 1 from rfl] at hp
      rw [show Int.toNat 1 = 1 from rfl, hp]
      rw [getD_set_self_param (by simp only [List.length_replicate]; have := hthis ht; omega)]
    · exact absurd hneg (by norm_num)
  · simp only [if_neg ht]
    refine ⟨trivial, ?_⟩
    obtain ⟨-, hpres⟩ := placeParamTypes_spec 0
      (argKinds.zip (List.range argKinds.length))
      ((List.replicate (argKinds.length + 1) ParamTy.unset).set (Int.toNat 0)
        ParamTy.indirectResultPtr) 0
    rcases hpres with hp | hneg
    · rw [show Int.toNat 0 = 0 from rfl] at hp
      rw [show Int.toNat 0 = 0 from rfl, hp]
      rw [getD_set_self_param (by simp only [List.length_replicate]; omega)]
    · exact absurd hneg (by norm_num)


/-- C4: when a call's or function's result is classified indirect, the
indirect-result pointer is placed at the position equal to the count of
leading special arguments plus 1 if the signature has an implicit receiver,
else plus 0: in `emitCall` the reported result index equals that position and
the final argument list carries the indirect-result node there, and in
`createFunction` (which never places a special argument in the parameter
list) the parameter at position 0 or 1, according to the receiver, is the
indirect-result pointer. -/
theorem c4_indirect_result_position {ee : EEInfo} {target : Val} {inp : CallInput}
    {out : CallOutput} (hasThis : Bool) (argKinds : List ABIArgKind)
    (hasSecret : Bool)
    (hind : inp.resultKind = ABIArgKind.indirect)
    (hthisC : inp.hasThis = true → 1 ≤ inp.args.length)
    (h : emitCall ee target inp = .ok out)
    (hthisF : hasThis = true → 1 ≤ argKinds.length) :
    (out.resultIndex =
        ((numSpecialArgsOf inp + (if inp.hasThis then 1 else 0) : Nat) : Int) ∧
      out.arguments.getD (numSpecialArgsOf inp + (if inp.hasThis then 1 else 0))
          Val.undef =
        (if inp.isJmp then Val.indirectResultParam
         else Val.temp (numSpecialArgsOf inp + (if inp.hasThis then 1 else 0)))) ∧
    ((createFunction hasThis ABIArgKind.indirect argKinds hasSecret).resultIndex =
        (if hasThis then 1 else 0) ∧
      (createFunction hasThis ABIArgKind.indirect argKinds hasSecret).paramTypes.getD
          (if hasThis then 1 else 0) ParamTy.unset = ParamTy.indirectResultPtr) :=
  ⟨emitCall_indirect_spec hind hthisC h,
   createFunction_indirect_spec hasThis argKinds hasSecret hthisF⟩

/-- Witness for C4: a call with an indirection cell and a receiver places the
indirect-result temporary at index 2 = 1 special + 1 receiver; a function
with a receiver places the indirect-result pointer parameter at index 1. -/
theorem c4_indirect_result_position_witness :
    ((CallOutput.mk
        [Instr.call (Val.arg 77) [Val.constNat 5, Val.coerced (Val.arg 0),
          Val.temp 2, Val.coerced (Val.arg 1)]]
        [Val.constNat 5, Val.coerced (Val.arg 0), Val.temp 2, Val.coerced (Val.arg 1)]
        2 CC.clrVirtualDispatchStub).resultIndex =
      ((numSpecialArgsOf (CallInput.mk CorInfoCallConv.default true ABIArgKind.indirect
          [ABIArgKind.direct, ABIArgKind.direct] [Val.arg 0, Val.arg 1]
          (some (Val.constNat 5)) false false false true) +
        (if (CallInput.mk CorInfoCallConv.default true ABIArgKind.indirect
          [ABIArgKind.direct, ABIArgKind.direct] [Val.arg 0, Val.arg 1]
          (some (Val.constNat 5)) false false false true).hasThis then 1 else 0) : Nat) : Int) ∧
      (CallOutput.mk
        [Instr.call (Val.arg 77) [Val.constNat 5, Val.coerced (Val.arg 0),
          Val.temp 2, Val.coerced (Val.arg 1)]]
        [Val.constNat 5, Val.coerced (Val.arg 0), Val.temp 2, Val.coerced (Val.arg 1)]
        2 CC.clrVirtualDispatchStub).arguments.getD
          (numSpecialArgsOf (CallInput.mk CorInfoCallConv.default true ABIArgKind.indirect
            [ABIArgKind.direct, ABIArgKind.direct] [Val.arg 0, Val.arg 1]
            (some (Val.constNat 5)) false false false true) +
           (if (CallInput.mk CorInfoCallConv.default true ABIArgKind.indirect
            [ABIArgKind.direct, ABIArgKind.direct] [Val.arg 0, Val.arg 1]
            (some (Val.constNat 5)) false false false true).hasThis then 1 else 0))
          Val.undef =
        (if (CallInput.mk CorInfoCallConv.default true ABIArgKind.indirect
          [ABIArgKind.direct, ABIArgKind.direct] [Val.arg 0, Val.arg 1]
          (some (Val.constNat 5)) false false false true).isJmp then Val.indirectResultParam
         else Val.temp (numSpecialArgsOf (CallInput.mk CorInfoCallConv.default true
            ABIArgKind.indirect [ABIArgKind.direct, ABIArgKind.direct]
            [Val.arg 0, Val.arg 1] (some (Val.constNat 5)) false false false true) +
          (if (CallInput.mk CorInfoCallConv.default true ABIArgKind.indirect
            [ABIArgKind.direct, ABIArgKind.direct] [Val.arg 0, Val.arg 1]
            (some (Val.constNat 5)) false false false true).hasThis then 1 else 0)))) ∧
    ((createFunction true ABIArgKind.indirect [ABIArgKind.direct, ABIArgKind.direct]
        false).resultIndex = (if true then 1 else 0) ∧
      (createFunction true ABIArgKind.indirect [ABIArgKind.direct, ABIArgKind.direct]
        false).paramTypes.getD (if true then 1 else 0) ParamTy.unset =
        ParamTy.indirectResultPtr) :=
  @c4_indirect_result_position ⟨0, 8, 16, 24, 32, 40⟩ (Val.arg 77)
    (CallInput.mk CorInfoCallConv.default true ABIArgKind.indirect
      [ABIArgKind.direct, ABIArgKind.direct] [Val.arg 0, Val.arg 1]
      (some (Val.constNat 5)) false false false true)
    (CallOutput.mk
      [Instr.call (Val.arg 77) [Val.constNat 5, Val.coerced (Val.arg 0),
        Val.temp 2, Val.coerced (Val.arg 1)]]
      [Val.constNat 5, Val.coerced (Val.arg 0), Val.temp 2, Val.coerced (Val.arg 1)]
      2 CC.clrVirtualDispatchStub)
    true [ABIArgKind.direct, ABIArgKind.direct] false
    (by decide) (by decide) (by decide) (by decide)

end Abi

/-- Witness for C5 at frame size 0 and 160, pointer widths 4 and 8. -/
theorem c5_frame_offset_translation_witness :
    GcInfoRecorder.slotOffsetOf 0 4 10 = 14 ∧
    GcInfoRecorder.slotOffsetOf 0 8 10 = 18 ∧
    GcInfoRecorder.slotOffsetOf 160 4 24 = 188 ∧
    GcInfoRecorder.slotOffsetOf 160 8 (-8) = 160 := by
  refine ⟨?_, ?_, ?_, ?_⟩ <;>
    · rw [c5_frame_offset_translation _ _ _ (by norm_num) (by norm_num)]
      norm_num


end LLILC
